import Mathlib

/-!
# Verification of the tic-tac-toe Go backend

Shallow embedding of the move-selection and win/draw-evaluation logic of the
repository (src/main.go, plus the earlier 3x3-only variant in
src/unnamed/part_000), together with proofs settling the frozen claims.

Modelling conventions:
* Go `[]string` boards become `List String`; cell reads `board[i]` become
  `List.getD i ""` (all modelled call sites stay in bounds, where the two
  agree with Go's panicking indexing).
* Go `int` values that can be negative (the `-1` sentinel of the move
  selectors) become `Int`; loop counters and board sizes, which are always
  non-negative at the modelled call sites, become `Nat`.
* `rand.Shuffle` / `rand.Intn` in the heuristic selector are modelled by
  explicit oracle parameters (`cornerOrder`, `pick`): the shuffled corner
  list and the random draw.
* Go's conversion `int(math.Inf(1))` is implementation-dependent per the Go
  specification (out-of-range float-to-int conversion).  We model the
  saturating result `2^63 - 1` (the behaviour on arm64 and most non-x86
  targets, and the value the code plainly intends as a "+infinity"
  sentinel); on amd64 the hardware instead yields `-2^63`.
-/

/-- Cell value constants, from `const (PLAYER_X = "X"; AI_O = "O"; EMPTY = "")`. -/
def PLAYER_X : String := "X"

/-- The AI's mark. -/
def AI_O : String := "O"

/-- The empty-cell value. -/
def EMPTY : String := ""

/-- `GameState` from src/main.go: board, board size and winner field.
(`BoardSize` is a Go `int`; it is modelled as `Nat`, negative sizes are not
exercised by any claim.) -/
structure GameState where
  board : List String
  boardSize : Nat
  winner : String
deriving Repr, DecidableEq

/-- `isBoardFull` from src/main.go: the loop returns `false` on the first
empty cell, `true` if none is found. -/
def isBoardFull (board : List String) : Bool :=
  board.all (fun cell => !(cell == EMPTY))

/-- `getEmptySpots` from src/main.go: the indices of the empty cells, in
increasing order (the Go loop appends them low-to-high). -/
def getEmptySpots (board : List String) : List Nat :=
  (List.range board.length).filter (fun i => board.getD i "" == EMPTY)

/-- `checkWinner` from src/main.go: the generalized N-scan win check.
Row loops, column loops and the two diagonal loops are rendered as
`any`/`all` over `List.range n`, matching the Go loops' early-exit
(`break` / `return true`) behaviour. -/
def checkWinner (board : List String) (player : String) (n : Nat) : Bool :=
  ((List.range n).any fun r =>
    (List.range n).all fun c => board.getD (r * n + c) "" == player) ||
  ((List.range n).any fun c =>
    (List.range n).all fun r => board.getD (r * n + c) "" == player) ||
  ((List.range n).all fun i => board.getD (i * n + i) "" == player) ||
  ((List.range n).all fun i => board.getD (i * n + (n - 1 - i)) "" == player)

/-- `minimaxWinChecker` from src/main.go: the hardcoded 8-triple 3x3 win
check used inside the minimax search. -/
def minimaxWinChecker (b : List String) (p : String) : Bool :=
  (b.getD 0 "" == p && b.getD 1 "" == p && b.getD 2 "" == p) ||
  (b.getD 3 "" == p && b.getD 4 "" == p && b.getD 5 "" == p) ||
  (b.getD 6 "" == p && b.getD 7 "" == p && b.getD 8 "" == p) ||
  (b.getD 0 "" == p && b.getD 3 "" == p && b.getD 6 "" == p) ||
  (b.getD 1 "" == p && b.getD 4 "" == p && b.getD 7 "" == p) ||
  (b.getD 2 "" == p && b.getD 5 "" == p && b.getD 8 "" == p) ||
  (b.getD 0 "" == p && b.getD 4 "" == p && b.getD 8 "" == p) ||
  (b.getD 2 "" == p && b.getD 4 "" == p && b.getD 6 "" == p)

namespace Part000

/-- `checkWinner` from src/unnamed/part_000: the table-driven 8-triple
3x3 win check (`winConditions` scanned in order). -/
def checkWinner (board : List String) (player : String) : Bool :=
  let winConditions : List (Nat × Nat × Nat) :=
    [(0, 1, 2), (3, 4, 5), (6, 7, 8),
     (0, 3, 6), (1, 4, 7), (2, 5, 8),
     (0, 4, 8), (2, 4, 6)]
  winConditions.any fun c =>
    board.getD c.1 "" == player && board.getD c.2.1 "" == player &&
      board.getD c.2.2 "" == player

/-- `isBoardFull` from src/unnamed/part_000 (textually the same loop as the
one in src/main.go). -/
def isBoardFull (board : List String) : Bool :=
  board.all (fun cell => !(cell == ""))

end Part000

/-- The value the model assigns to Go's `int(math.Inf(1))`: the saturating
conversion result `2^63 - 1`.  (The Go spec leaves out-of-range
float-to-int conversion implementation-dependent; see the header comment.) -/
def goIntPosInf : Int := 2 ^ 63 - 1

/-- `minimax` from src/main.go, with an explicit `fuel` argument for
termination.  Every modelled call site passes `fuel` at least the number of
empty cells of the 9-cell board, so the `fuel = 0` branch (which returns 0)
is never reached: each recursive call fills one empty cell and spends one
unit of fuel.  The index loops `for i := 0; i < 9` become folds over
`List.range 9`; `best` starts at `-int(math.Inf(1))` resp.
`int(math.Inf(1))`, modelled via `goIntPosInf`. -/
def minimax (fuel : Nat) (board : List String) (depth : Int)
    (isMaximizing : Bool) : Int :=
  if minimaxWinChecker board AI_O then 10 - depth
  else if minimaxWinChecker board PLAYER_X then depth - 10
  else if isBoardFull board then 0
  else
    match fuel with
    | 0 => 0
    | fuel + 1 =>
      if isMaximizing then
        (List.range 9).foldl
          (fun best i =>
            if board.getD i "" == EMPTY then
              max best (minimax fuel (board.set i AI_O) (depth + 1) false)
            else best)
          (-goIntPosInf)
      else
        (List.range 9).foldl
          (fun best i =>
            if board.getD i "" == EMPTY then
              min best (minimax fuel (board.set i PLAYER_X) (depth + 1) true)
            else best)
          goIntPosInf

/-- `findBestMoveMinimax` from src/main.go: the root loop over all nine
cells.  The accumulator is the pair `(bestVal, bestMove)`, starting at
`(-int(math.Inf(1)), -1)`; a move is adopted exactly when its value is
strictly greater than the best seen so far.  The recursion receives fuel 9,
more than the at most 8 empty cells remaining after the simulated move. -/
def findBestMoveMinimax (board : List String) : Int :=
  ((List.range 9).foldl
    (fun acc i =>
      if board.getD i "" == EMPTY then
        let moveVal := minimax 9 (board.set i AI_O) 0 false
        if moveVal > acc.1 then (moveVal, (i : Int)) else acc
      else acc)
    (-goIntPosInf, -1)).2

/-- Stages 3 to 5 of `findBestMoveHeuristic` from src/main.go (center,
shuffled corners, random fallback).  `cornerOrder` stands for the shuffled
corner list produced by `rand.Shuffle`, and `pick` for the draw of
`rand.Intn(len(emptySpots))`. -/
def heuristicFallThrough (cornerOrder : List Nat) (pick : Nat)
    (board : List String) (n : Nat) : Int :=
  let emptySpots := getEmptySpots board
  let centerIdx := n * n / 2
  if board.getD centerIdx "" == EMPTY then (centerIdx : Int)
  else
    match cornerOrder.find? (fun corner => board.getD corner "" == EMPTY) with
    | some corner => (corner : Int)
    | none => (emptySpots.getD (pick % emptySpots.length) 0 : Int)

/-- `findBestMoveHeuristic` from src/main.go: win-now scan, block scan,
then the center/corner/random fall-through.  The two scans walk
`emptySpots` in order and return the first hit; placing a mark on a fresh
copy of the board (`boardCopy`) is modelled by `List.set` on the immutable
list. -/
def findBestMoveHeuristic (cornerOrder : List Nat) (pick : Nat)
    (board : List String) (n : Nat) : Int :=
  let emptySpots := getEmptySpots board
  if emptySpots.isEmpty then -1
  else
    match emptySpots.find?
        (fun move => checkWinner (board.set move AI_O) AI_O n) with
    | some move => (move : Int)
    | none =>
      match emptySpots.find?
          (fun move => checkWinner (board.set move PLAYER_X) PLAYER_X n) with
      | some move => (move : Int)
      | none => heuristicFallThrough cornerOrder pick board n

/-- The corner list `[]int{0, n - 1, n * (n - 1), n*n - 1}` built by
`findBestMoveHeuristic` before shuffling. -/
def heuristicCorners (n : Nat) : List Nat :=
  [0, n - 1, n * (n - 1), n * n - 1]

/-- `aiMove` from src/main.go: dispatch on board size, then place `AI_O`
when the selected move is not the `-1` sentinel and the target cell is
empty. -/
def aiMove (cornerOrder : List Nat) (pick : Nat) (state : GameState) :
    GameState :=
  let bestMove : Int :=
    if state.boardSize = 3 then findBestMoveMinimax state.board
    else findBestMoveHeuristic cornerOrder pick state.board state.boardSize
  if bestMove != -1 && state.board.getD bestMove.toNat "" == EMPTY then
    { state with board := state.board.set bestMove.toNat AI_O }
  else state

/-- The game-logic block of `playHandler` from src/main.go (after decoding
and validation): check a player win, then a draw, otherwise let the AI
move and re-check win/draw. -/
def playLogic (cornerOrder : List Nat) (pick : Nat) (state : GameState) :
    GameState :=
  if checkWinner state.board PLAYER_X state.boardSize then
    { state with winner := PLAYER_X }
  else if isBoardFull state.board then
    { state with winner := "draw" }
  else
    let moved := aiMove cornerOrder pick state
    if checkWinner moved.board AI_O moved.boardSize then
      { moved with winner := AI_O }
    else if isBoardFull moved.board then
      { moved with winner := "draw" }
    else moved

/-- Outcome of a decoded `/play` request: either the 400 rejection of the
board-size validation, or the state produced by the game logic. -/
inductive PlayResult where
  | badRequest
  | ok (state : GameState)
deriving Repr, DecidableEq

/-- The validation-plus-game-logic path of `playHandler` from src/main.go:
`if currentState.BoardSize == 0 || len(currentState.Board) !=
currentState.BoardSize*currentState.BoardSize` rejects with 400, otherwise
the game logic runs. -/
def handlePlay (cornerOrder : List Nat) (pick : Nat) (state : GameState) :
    PlayResult :=
  if state.boardSize = 0 ∨
      state.board.length ≠ state.boardSize * state.boardSize then
    PlayResult.badRequest
  else
    PlayResult.ok (playLogic cornerOrder pick state)

/-! ## Mutating-search model

`findBestMoveMinimax` and `minimax` in the Go source mutate the shared
board slice in place (place a mark, recurse, undo).  The definitions above
are the pure input/output contract; the following versions thread the
mutated board explicitly, returning it alongside the score, so that the
place-and-undo discipline itself can be verified (claim C8). -/

/-- `minimax` with the in-place board mutation made explicit: the result is
the returned score together with the board slice as it stands when the
function returns. -/
def minimaxMut (fuel : Nat) (board : List String) (depth : Int)
    (isMaximizing : Bool) : Int × List String :=
  if minimaxWinChecker board AI_O then (10 - depth, board)
  else if minimaxWinChecker board PLAYER_X then (depth - 10, board)
  else if isBoardFull board then (0, board)
  else
    match fuel with
    | 0 => (0, board)
    | fuel + 1 =>
      if isMaximizing then
        (List.range 9).foldl
          (fun acc i =>
            if acc.2.getD i "" == EMPTY then
              let rec1 := minimaxMut fuel (acc.2.set i AI_O) (depth + 1) false
              (max acc.1 rec1.1, rec1.2.set i EMPTY)
            else acc)
          (-goIntPosInf, board)
      else
        (List.range 9).foldl
          (fun acc i =>
            if acc.2.getD i "" == EMPTY then
              let rec1 := minimaxMut fuel (acc.2.set i PLAYER_X) (depth + 1) true
              (min acc.1 rec1.1, rec1.2.set i EMPTY)
            else acc)
          (goIntPosInf, board)

/-- `findBestMoveMinimax` with the in-place mutation made explicit: the
accumulator carries `(bestVal, bestMove)` together with the board slice
after each place-recurse-undo step. -/
def findBestMoveMinimaxMut (board : List String) : Int × List String :=
  let out :=
    (List.range 9).foldl
      (fun (acc : (Int × Int) × List String) i =>
        if acc.2.getD i "" == EMPTY then
          let rec1 := minimaxMut 9 (acc.2.set i AI_O) 0 false
          let undone := rec1.2.set i EMPTY
          if rec1.1 > acc.1.1 then ((rec1.1, (i : Int)), undone)
          else (acc.1, undone)
        else acc)
      ((-goIntPosInf, -1), board)
  (out.1.2, out.2)

/-! ## Game-theoretic reading of the claims

The notions "forced loss" and "opponent strategy" from the claims are
formalised by bounded game recursions over the same board representation.
These definitions come from the claims' words, not from the source: they
are the yardstick the selector is measured against. -/

/-- The single AI reply of the 3x3 handler path: compute
`findBestMoveMinimax` and place `AI_O` exactly the way `aiMove` does
(`bestMove != -1 && board[bestMove] == EMPTY`). -/
def oReply (board : List String) : List String :=
  let bestMove := findBestMoveMinimax board
  if bestMove != -1 && board.getD bestMove.toNat "" == EMPTY then
    board.set bestMove.toNat AI_O
  else board

/-- `safeForO fuel b oToMove = true` says the AI has a strategy from `b`
(with `oToMove` telling whose turn it is) that avoids an `X` win against
every opponent line of play: the game-theoretic "not a forced loss".
Terminal positions are read off in the same order as `minimax` reads them
(an AI line counts first).  `fuel` bounds the search depth; every use
supplies `fuel` at least the number of empty cells. -/
def safeForO (fuel : Nat) (board : List String) (oToMove : Bool) : Bool :=
  if minimaxWinChecker board AI_O then true
  else if minimaxWinChecker board PLAYER_X then false
  else if isBoardFull board then true
  else
    match fuel with
    | 0 => false
    | fuel + 1 =>
      if oToMove then
        (getEmptySpots board).any fun m => safeForO fuel (board.set m AI_O) false
      else
        (getEmptySpots board).all fun j => safeForO fuel (board.set j PLAYER_X) true

/-- `xCannotBeatAI fuel b = true` says: with `X` to move on `b` and the AI
answering every `X` move through `oReply` (exactly as successive `/play`
requests would), no line of play ends with `X` completing a winning line.
Each round mirrors one `playHandler` request: check an `X` win and a draw,
then let the AI move, then continue.  `fuel` bounds the number of rounds;
every use supplies `fuel` at least the number of empty cells. -/
def xCannotBeatAI (fuel : Nat) (board : List String) : Bool :=
  if minimaxWinChecker board AI_O then true
  else if minimaxWinChecker board PLAYER_X then false
  else if isBoardFull board then true
  else
    match fuel with
    | 0 => true
    | fuel + 1 =>
      (getEmptySpots board).all fun j =>
        let afterX := board.set j PLAYER_X
        if minimaxWinChecker afterX PLAYER_X then false
        else if isBoardFull afterX then true
        else xCannotBeatAI fuel (oReply afterX)

/-- Claim C1's property at a board `b` with the AI to move: the selector's
move is applied, and then every opponent line of play (with the AI
answering per the selector) must avoid an `X` win. -/
def selectorMoveSafe (board : List String) : Bool :=
  xCannotBeatAI 9 (oReply board)

/-! ## List helpers -/

theorem getD_set (b : List String) (i j : Nat) (m : String) :
    (b.set i m).getD j "" =
      if i = j ∧ i < b.length then m else b.getD j "" := by
  induction b generalizing i j with
  | nil => simp [List.set]
  | cons hd tl ih =>
    cases i with
    | zero =>
      cases j with
      | zero => simp
      | succ j => simp [List.getD]
    | succ i =>
      cases j with
      | zero => simp [List.getD]
      | succ j =>
        simp only [List.set, List.getD_cons_succ, List.length_cons, ih]
        by_cases h : i = j ∧ i < tl.length
        · rw [if_pos h, if_pos ⟨by omega, by omega⟩]
        · rw [if_neg h, if_neg (by omega)]

theorem getD_set_self (b : List String) (i : Nat) (m : String)
    (hi : i < b.length) : (b.set i m).getD i "" = m := by
  rw [getD_set, if_pos ⟨rfl, hi⟩]

theorem getD_set_ne (b : List String) (i j : Nat) (m : String)
    (h : i ≠ j) : (b.set i m).getD j "" = b.getD j "" := by
  rw [getD_set, if_neg (by tauto)]

theorem count_set_succ (b : List String) (i : Nat) (m : String)
    (hi : i < b.length) (he : b.getD i "" = EMPTY) (hm : m ≠ EMPTY) :
    (b.set i m).count EMPTY + 1 = b.count EMPTY := by
  induction b generalizing i with
  | nil => simp at hi
  | cons hd tl ih =>
    cases i with
    | zero =>
      simp only [List.getD_cons_zero] at he
      subst he
      have h1 : (m == EMPTY) = false := by simpa using hm
      simp [List.set_cons_zero, List.count_cons, h1]
    | succ i =>
      simp only [List.getD_cons_succ] at he
      simp only [List.length_cons, Nat.succ_lt_succ_iff] at hi
      have := ih i hi he
      simp only [List.set_cons_succ, List.count_cons]
      rcases h : (hd == EMPTY) with _ | _ <;> simp [h] <;> omega

theorem count_empty_eq_zero_iff (b : List String) :
    b.count EMPTY = 0 ↔ isBoardFull b = true := by
  rw [List.count_eq_zero, isBoardFull, List.all_eq_true]
  constructor
  · intro h c hc
    simp only [Bool.not_eq_true', beq_eq_false_iff_ne, ne_eq]
    intro hce
    exact h (hce ▸ hc)
  · intro h hc
    have := h _ hc
    simp at this

theorem mem_getEmptySpots (b : List String) (i : Nat) :
    i ∈ getEmptySpots b ↔ i < b.length ∧ b.getD i "" = EMPTY := by
  rw [getEmptySpots, List.mem_filter, List.mem_range]
  simp [beq_iff_eq]

theorem getEmptySpots_pairwise (b : List String) :
    (getEmptySpots b).Pairwise (· < ·) :=
  List.Pairwise.filter _ (List.pairwise_lt_range b.length)

theorem exists_empty_of_not_full (b : List String)
    (h : isBoardFull b = false) :
    ∃ i, i < b.length ∧ b.getD i "" = EMPTY := by
  have hc : b.count EMPTY ≠ 0 := by
    intro h0
    rw [count_empty_eq_zero_iff] at h0
    rw [h0] at h
    cases h
  have hmem : EMPTY ∈ b := by
    by_contra hnm
    exact hc (List.count_eq_zero.mpr hnm)
  obtain ⟨i, hi, hget⟩ := List.getElem_of_mem hmem
  exact ⟨i, hi, by rw [List.getD_eq_getElem _ _ hi, hget]⟩

theorem not_full_of_empty (b : List String) (i : Nat)
    (hi : i < b.length) (he : b.getD i "" = EMPTY) :
    isBoardFull b = false := by
  rw [isBoardFull, List.all_eq_false]
  refine ⟨EMPTY, ?_, by simp [EMPTY]⟩
  rw [List.getD_eq_getElem _ _ hi] at he
  exact he ▸ List.getElem_mem hi

/-- `List.find?` on a strictly sorted list of naturals returns the least
element satisfying the predicate. -/
theorem find?_sorted_least (l : List Nat) (p : Nat → Bool)
    (hl : l.Pairwise (· < ·)) (m : Nat) (h : l.find? p = some m) :
    m ∈ l ∧ p m = true ∧ ∀ i ∈ l, i < m → p i = false := by
  induction l with
  | nil => simp at h
  | cons hd tl ih =>
    rw [List.find?_cons] at h
    rcases hp : p hd with _ | _
    · rw [hp] at h
      obtain ⟨hm, hpm, hleast⟩ := ih (List.Pairwise.of_cons hl) h
      refine ⟨List.mem_cons_of_mem _ hm, hpm, ?_⟩
      intro i hi hlt
      rcases List.mem_cons.mp hi with rfl | hitl
      · exact hp
      · exact hleast i hitl hlt
    · rw [hp] at h
      injection h with h
      subst h
      refine ⟨List.mem_cons_self _ _, hp, ?_⟩
      intro i hi hlt
      rcases List.mem_cons.mp hi with rfl | hitl
      · omega
      · have := (List.pairwise_cons.mp hl).1 i hitl
        omega

theorem find?_eq_none_iff (l : List Nat) (p : Nat → Bool) :
    l.find? p = none ↔ ∀ i ∈ l, p i = false := by
  rw [List.find?_eq_none]
  constructor
  · intro h i hi
    have := h i hi
    simpa using this
  · intro h i hi
    simp [h i hi]

/-- A strictly sorted list can be split at any member, with everything in
front of it smaller. -/
theorem sorted_split_at_mem (l : List Nat) (m : Nat)
    (hl : l.Pairwise (· < ·)) (hm : m ∈ l) :
    ∃ l₁ l₂, l = l₁ ++ m :: l₂ ∧ ∀ i ∈ l₁, i < m := by
  induction l with
  | nil => simp at hm
  | cons hd tl ih =>
    rcases List.mem_cons.mp hm with rfl | hmtl
    · exact ⟨[], tl, rfl, by simp⟩
    · obtain ⟨l₁, l₂, heq, hlt⟩ := ih (List.Pairwise.of_cons hl) hmtl
      refine ⟨hd :: l₁, l₂, by rw [heq]; rfl, ?_⟩
      intro i hi
      rcases List.mem_cons.mp hi with rfl | hil₁
      · exact (List.pairwise_cons.mp hl).1 m hmtl
      · exact hlt i hil₁

/-! ## Guarded fold lemmas

The index loops of `minimax` are folds over `List.range 9` that update an
accumulator through `max`/`min` exactly at indices passing a guard.  The
following lemmas characterise such folds. -/

section GuardedFold

variable (P : Nat → Bool) (f : Nat → Int)

theorem gfold_max_init_le (l : List Nat) (init : Int) :
    init ≤ l.foldl (fun a i => if P i then max a (f i) else a) init := by
  induction l generalizing init with
  | nil => simp
  | cons hd tl ih =>
    simp only [List.foldl_cons]
    rcases h : P hd with _ | _
    · simpa [h] using ih init
    · simp only [h, if_pos]
      exact le_trans (le_max_left _ _) (ih _)

theorem gfold_max_le_of_mem (l : List Nat) (i : Nat) :
    ∀ init : Int, i ∈ l → P i = true →
      f i ≤ l.foldl (fun a j => if P j then max a (f j) else a) init := by
  induction l with
  | nil => intro init hi _; simp at hi
  | cons hd tl ih =>
    intro init hi hp
    simp only [List.foldl_cons]
    rcases List.mem_cons.mp hi with rfl | hitl
    · rw [hp]
      exact le_trans (le_max_right _ _) (gfold_max_init_le P f tl _)
    · exact ih _ hitl hp

theorem gfold_max_attained (l : List Nat) (init : Int) :
    l.foldl (fun a i => if P i then max a (f i) else a) init = init ∨
      ∃ i ∈ l, P i = true ∧
        l.foldl (fun a i => if P i then max a (f i) else a) init = f i := by
  induction l generalizing init with
  | nil => simp
  | cons hd tl ih =>
    simp only [List.foldl_cons]
    rcases h : P hd with _ | _
    · simp only [h, Bool.false_eq_true, if_false]
      rcases ih init with h1 | ⟨i, hi, hpi, h1⟩
      · exact Or.inl h1
      · exact Or.inr ⟨i, List.mem_cons_of_mem _ hi, hpi, h1⟩
    · simp only [h, if_pos]
      rcases ih (max init (f hd)) with h1 | ⟨i, hi, hpi, h1⟩
      · rcases max_choice init (f hd) with hm | hm
        · exact Or.inl (by rw [h1, hm])
        · exact Or.inr ⟨hd, List.mem_cons_self _ _, h, by rw [h1, hm]⟩
      · exact Or.inr ⟨i, List.mem_cons_of_mem _ hi, hpi, h1⟩

theorem gfold_min_le_init (l : List Nat) (init : Int) :
    l.foldl (fun a i => if P i then min a (f i) else a) init ≤ init := by
  induction l generalizing init with
  | nil => simp
  | cons hd tl ih =>
    simp only [List.foldl_cons]
    rcases h : P hd with _ | _
    · simpa [h] using ih init
    · simp only [h, if_pos]
      exact le_trans (ih _) (min_le_left _ _)

theorem gfold_min_le_of_mem (l : List Nat) (i : Nat) :
    ∀ init : Int, i ∈ l → P i = true →
      l.foldl (fun a j => if P j then min a (f j) else a) init ≤ f i := by
  induction l with
  | nil => intro init hi _; simp at hi
  | cons hd tl ih =>
    intro init hi hp
    simp only [List.foldl_cons]
    rcases List.mem_cons.mp hi with rfl | hitl
    · rw [hp]
      exact le_trans (gfold_min_le_init P f tl _) (min_le_right _ _)
    · exact ih _ hitl hp

theorem gfold_min_ge (l : List Nat) (c : Int)
    (h : ∀ i ∈ l, P i = true → c ≤ f i) :
    ∀ init : Int, c ≤ init →
      c ≤ l.foldl (fun a i => if P i then min a (f i) else a) init := by
  induction l with
  | nil => intro init hinit; simpa
  | cons hd tl ih =>
    intro init hinit
    simp only [List.foldl_cons]
    rcases hp : P hd with _ | _
    · exact ih (fun i hi => h i (List.mem_cons_of_mem _ hi)) init hinit
    · simp only [hp, if_pos]
      exact ih (fun i hi => h i (List.mem_cons_of_mem _ hi)) _
        (le_min hinit (h hd (List.mem_cons_self _ _) hp))

theorem gfold_max_le (l : List Nat) (c : Int)
    (h : ∀ i ∈ l, P i = true → f i ≤ c) :
    ∀ init : Int, init ≤ c →
      l.foldl (fun a i => if P i then max a (f i) else a) init ≤ c := by
  induction l with
  | nil => intro init hinit; simpa
  | cons hd tl ih =>
    intro init hinit
    simp only [List.foldl_cons]
    rcases hp : P hd with _ | _
    · exact ih (fun i hi => h i (List.mem_cons_of_mem _ hi)) init hinit
    · simp only [hp, if_pos]
      exact ih (fun i hi => h i (List.mem_cons_of_mem _ hi)) _
        (max_le hinit (h hd (List.mem_cons_self _ _) hp))

end GuardedFold

/-! ## Win-checker lemmas -/

theorem atom_set_other (b : List String) (i : Nat) (m p : String)
    (he : b.getD i "" = EMPTY) (hm : (m == p) = false)
    (hp : ((EMPTY : String) == p) = false) :
    ∀ k, ((b.set i m).getD k "" == p) = (b.getD k "" == p) := by
  intro k
  rw [getD_set]
  by_cases h : i = k ∧ i < b.length
  · rw [if_pos h, hm, ← h.1, he, hp]
  · rw [if_neg h]

/-- Placing a mark other than `p` on an empty cell does not change whether
`p` has a winning triple. -/
theorem minimaxWinChecker_set_other (b : List String) (i : Nat)
    (m p : String) (he : b.getD i "" = EMPTY) (hm : (m == p) = false)
    (hp : ((EMPTY : String) == p) = false) :
    minimaxWinChecker (b.set i m) p = minimaxWinChecker b p := by
  simp only [minimaxWinChecker, atom_set_other b i m p he hm hp]

/-- Pointwise monotonicity of the generalized N-scan win check. -/
theorem checkWinner_mono (b b' : List String) (p : String) (n : Nat)
    (h : ∀ k, (b.getD k "" == p) = true → (b'.getD k "" == p) = true) :
    checkWinner b p n = true → checkWinner b' p n = true := by
  simp only [checkWinner, Bool.or_eq_true, List.any_eq_true, List.all_eq_true]
  rintro (((⟨r, hr, hrow⟩ | ⟨c, hc, hcol⟩) | hdiag) | hanti)
  · exact Or.inl (Or.inl (Or.inl ⟨r, hr, fun i hi => h _ (hrow i hi)⟩))
  · exact Or.inl (Or.inl (Or.inr ⟨c, hc, fun i hi => h _ (hcol i hi)⟩))
  · exact Or.inl (Or.inr (fun i hi => h _ (hdiag i hi)))
  · exact Or.inr (fun i hi => h _ (hanti i hi))

theorem atom_set_self (b : List String) (i : Nat) (p : String) :
    ∀ k, (b.getD k "" == p) = true → ((b.set i p).getD k "" == p) = true := by
  intro k hk
  rw [getD_set]
  by_cases h : i = k ∧ i < b.length
  · rw [if_pos h]
    simp
  · rw [if_neg h]
    exact hk

/-- Placing `p` anywhere preserves a `p` win of the N-scan check. -/
theorem checkWinner_set_self (b : List String) (i : Nat) (p : String)
    (n : Nat) (h : checkWinner b p n = true) :
    checkWinner (b.set i p) p n = true :=
  checkWinner_mono b _ p n (atom_set_self b i p) h

/-! ## Unfolding lemmas for the fuelled recursions -/

theorem minimax_zero_def (b : List String) (d : Int) (p : Bool) :
    minimax 0 b d p =
      (if minimaxWinChecker b AI_O then 10 - d
      else if minimaxWinChecker b PLAYER_X then d - 10
      else if isBoardFull b then 0
      else 0) := rfl

theorem minimax_succ_def (f : Nat) (b : List String) (d : Int) (p : Bool) :
    minimax (f + 1) b d p =
      (if minimaxWinChecker b AI_O then 10 - d
      else if minimaxWinChecker b PLAYER_X then d - 10
      else if isBoardFull b then 0
      else
        if p then
          (List.range 9).foldl
            (fun best i =>
              if b.getD i "" == EMPTY then
                max best (minimax f (b.set i AI_O) (d + 1) false)
              else best)
            (-goIntPosInf)
        else
          (List.range 9).foldl
            (fun best i =>
              if b.getD i "" == EMPTY then
                min best (minimax f (b.set i PLAYER_X) (d + 1) true)
              else best)
            goIntPosInf) := rfl

theorem minimax_owin (f : Nat) (b : List String) (d : Int) (p : Bool)
    (h : minimaxWinChecker b AI_O = true) : minimax f b d p = 10 - d := by
  cases f with
  | zero => rw [minimax_zero_def, h]; simp
  | succ f => rw [minimax_succ_def, h]; simp

theorem minimax_xwin (f : Nat) (b : List String) (d : Int) (p : Bool)
    (h1 : minimaxWinChecker b AI_O = false)
    (h2 : minimaxWinChecker b PLAYER_X = true) :
    minimax f b d p = d - 10 := by
  cases f with
  | zero => rw [minimax_zero_def, h1, h2]; simp
  | succ f => rw [minimax_succ_def, h1, h2]; simp

theorem minimax_full (f : Nat) (b : List String) (d : Int) (p : Bool)
    (h1 : minimaxWinChecker b AI_O = false)
    (h2 : minimaxWinChecker b PLAYER_X = false)
    (h3 : isBoardFull b = true) : minimax f b d p = 0 := by
  cases f with
  | zero => rw [minimax_zero_def, h1, h2, h3]; simp
  | succ f => rw [minimax_succ_def, h1, h2, h3]; simp

theorem minimax_step_max (f : Nat) (b : List String) (d : Int)
    (h1 : minimaxWinChecker b AI_O = false)
    (h2 : minimaxWinChecker b PLAYER_X = false)
    (h3 : isBoardFull b = false) :
    minimax (f + 1) b d true =
      (List.range 9).foldl
        (fun best i =>
          if b.getD i "" == EMPTY then
            max best (minimax f (b.set i AI_O) (d + 1) false)
          else best)
        (-goIntPosInf) := by
  rw [minimax_succ_def, h1, h2, h3]; simp

theorem minimax_step_min (f : Nat) (b : List String) (d : Int)
    (h1 : minimaxWinChecker b AI_O = false)
    (h2 : minimaxWinChecker b PLAYER_X = false)
    (h3 : isBoardFull b = false) :
    minimax (f + 1) b d false =
      (List.range 9).foldl
        (fun best i =>
          if b.getD i "" == EMPTY then
            min best (minimax f (b.set i PLAYER_X) (d + 1) true)
          else best)
        goIntPosInf := by
  rw [minimax_succ_def, h1, h2, h3]; simp

theorem goIntPosInf_pos : (0 : Int) < goIntPosInf := by
  norm_num [goIntPosInf]

/-- Every minimax value of a position reachable in a 9-cell game is at
least `d - 10`: the worst outcome is an immediate `X` win. -/
theorem minimax_lower (fuel : Nat) : ∀ (b : List String) (d : Int) (p : Bool),
    b.length = 9 → 0 ≤ d → d + (b.count EMPTY : Int) ≤ 9 →
    d - 10 ≤ minimax fuel b d p := by
  induction fuel with
  | zero =>
    intro b d p h9 hd hc
    have hcount : (0 : Int) ≤ (b.count EMPTY : Int) := Int.natCast_nonneg _
    rw [minimax_zero_def]
    split_ifs <;> omega
  | succ f ih =>
    intro b d p h9 hd hc
    have hcount : (0 : Int) ≤ (b.count EMPTY : Int) := Int.natCast_nonneg _
    rcases h1 : minimaxWinChecker b AI_O with _ | _
    · rcases h2 : minimaxWinChecker b PLAYER_X with _ | _
      · rcases h3 : isBoardFull b with _ | _
        · obtain ⟨i0, hi0, he0⟩ := exists_empty_of_not_full b h3
          rcases p with _ | _
          · rw [minimax_step_min f b d h1 h2 h3]
            refine gfold_min_ge _ _ (List.range 9) (d - 10) ?_ goIntPosInf
              (by have := goIntPosInf_pos; omega)
            intro i hi hPi
            have hilt : i < b.length := h9 ▸ List.mem_range.mp hi
            have hei : b.getD i "" = EMPTY := beq_iff_eq.mp hPi
            have hcs := count_set_succ b i PLAYER_X hilt hei (by decide)
            have hih := ih (b.set i PLAYER_X) (d + 1) true
              (by rw [List.length_set, h9]) (by omega) (by omega)
            show d - 10 ≤ minimax f (b.set i PLAYER_X) (d + 1) true
            omega
          · rw [minimax_step_max f b d h1 h2 h3]
            have hmem : i0 ∈ List.range 9 := List.mem_range.mpr (h9 ▸ hi0)
            have hcs := count_set_succ b i0 AI_O hi0 he0 (by decide)
            have hih := ih (b.set i0 AI_O) (d + 1) false
              (by rw [List.length_set, h9]) (by omega) (by omega)
            refine le_trans ?_
              (gfold_max_le_of_mem _ _ (List.range 9) i0 (-goIntPosInf) hmem ?_)
            · show d - 10 ≤ minimax f (b.set i0 AI_O) (d + 1) false
              omega
            · rw [he0]
              simp
        · rw [minimax_full (f + 1) b d p h1 h2 h3]
          omega
      · rw [minimax_xwin (f + 1) b d p h1 h2]
    · rw [minimax_owin (f + 1) b d p h1]
      omega

theorem safeForO_zero_def (b : List String) (o : Bool) :
    safeForO 0 b o =
      (if minimaxWinChecker b AI_O then true
      else if minimaxWinChecker b PLAYER_X then false
      else if isBoardFull b then true
      else false) := rfl

theorem safeForO_succ_def (f : Nat) (b : List String) (o : Bool) :
    safeForO (f + 1) b o =
      (if minimaxWinChecker b AI_O then true
      else if minimaxWinChecker b PLAYER_X then false
      else if isBoardFull b then true
      else
        if o then
          (getEmptySpots b).any fun m => safeForO f (b.set m AI_O) false
        else
          (getEmptySpots b).all fun j =>
            safeForO f (b.set j PLAYER_X) true) := rfl

theorem safeForO_owin (f : Nat) (b : List String) (o : Bool)
    (h : minimaxWinChecker b AI_O = true) : safeForO f b o = true := by
  cases f with
  | zero => rw [safeForO_zero_def, h]; simp
  | succ f => rw [safeForO_succ_def, h]; simp

theorem safeForO_xwin (f : Nat) (b : List String) (o : Bool)
    (h1 : minimaxWinChecker b AI_O = false)
    (h2 : minimaxWinChecker b PLAYER_X = true) : safeForO f b o = false := by
  cases f with
  | zero => rw [safeForO_zero_def, h1, h2]; simp
  | succ f => rw [safeForO_succ_def, h1, h2]; simp

theorem safeForO_full (f : Nat) (b : List String) (o : Bool)
    (h1 : minimaxWinChecker b AI_O = false)
    (h2 : minimaxWinChecker b PLAYER_X = false)
    (h3 : isBoardFull b = true) : safeForO f b o = true := by
  cases f with
  | zero => rw [safeForO_zero_def, h1, h2, h3]; simp
  | succ f => rw [safeForO_succ_def, h1, h2, h3]; simp

theorem safeForO_step_any (f : Nat) (b : List String)
    (h1 : minimaxWinChecker b AI_O = false)
    (h2 : minimaxWinChecker b PLAYER_X = false)
    (h3 : isBoardFull b = false) :
    safeForO (f + 1) b true =
      ((getEmptySpots b).any fun m => safeForO f (b.set m AI_O) false) := by
  rw [safeForO_succ_def, h1, h2, h3]; simp

theorem safeForO_step_all (f : Nat) (b : List String)
    (h1 : minimaxWinChecker b AI_O = false)
    (h2 : minimaxWinChecker b PLAYER_X = false)
    (h3 : isBoardFull b = false) :
    safeForO (f + 1) b false =
      ((getEmptySpots b).all fun j => safeForO f (b.set j PLAYER_X) true) := by
  rw [safeForO_succ_def, h1, h2, h3]; simp

theorem xCannotBeatAI_zero_def (b : List String) :
    xCannotBeatAI 0 b =
      (if minimaxWinChecker b AI_O then true
      else if minimaxWinChecker b PLAYER_X then false
      else if isBoardFull b then true
      else true) := rfl

theorem xCannotBeatAI_succ_def (f : Nat) (b : List String) :
    xCannotBeatAI (f + 1) b =
      (if minimaxWinChecker b AI_O then true
      else if minimaxWinChecker b PLAYER_X then false
      else if isBoardFull b then true
      else
        (getEmptySpots b).all fun j =>
          let afterX := b.set j PLAYER_X
          if minimaxWinChecker afterX PLAYER_X then false
          else if isBoardFull afterX then true
          else xCannotBeatAI f (oReply afterX)) := rfl

theorem xCannotBeatAI_owin (f : Nat) (b : List String)
    (h : minimaxWinChecker b AI_O = true) : xCannotBeatAI f b = true := by
  cases f with
  | zero => rw [xCannotBeatAI_zero_def, h]; simp
  | succ f => rw [xCannotBeatAI_succ_def, h]; simp

theorem xCannotBeatAI_full (f : Nat) (b : List String)
    (h1 : minimaxWinChecker b AI_O = false)
    (h2 : minimaxWinChecker b PLAYER_X = false)
    (h3 : isBoardFull b = true) : xCannotBeatAI f b = true := by
  cases f with
  | zero => rw [xCannotBeatAI_zero_def, h1, h2, h3]; simp
  | succ f => rw [xCannotBeatAI_succ_def, h1, h2, h3]; simp

/-! ## Fuel stability and the value-safety equivalence -/

theorem all_congr_mem (l : List Nat) (p q : Nat → Bool)
    (h : ∀ x ∈ l, p x = q x) : l.all p = l.all q := by
  induction l with
  | nil => rfl
  | cons hd tl ih =>
    simp only [List.all_cons]
    rw [h hd (List.mem_cons_self _ _),
      ih (fun x hx => h x (List.mem_cons_of_mem _ hx))]

theorem any_congr_mem (l : List Nat) (p q : Nat → Bool)
    (h : ∀ x ∈ l, p x = q x) : l.any p = l.any q := by
  induction l with
  | nil => rfl
  | cons hd tl ih =>
    simp only [List.any_cons]
    rw [h hd (List.mem_cons_self _ _),
      ih (fun x hx => h x (List.mem_cons_of_mem _ hx))]

theorem beq_empty_of_eq {s : String} (h : s = EMPTY) :
    (s == EMPTY) = true := by
  rw [h]
  exact beq_self_eq_true EMPTY

theorem safeForO_fuel_succ (f : Nat) : ∀ (b : List String) (o : Bool),
    b.count EMPTY ≤ f → safeForO (f + 1) b o = safeForO f b o := by
  induction f with
  | zero =>
    intro b o hc
    have hfull : isBoardFull b = true :=
      (count_empty_eq_zero_iff b).mp (Nat.le_zero.mp hc)
    rcases h1 : minimaxWinChecker b AI_O with _ | _
    · rcases h2 : minimaxWinChecker b PLAYER_X with _ | _
      · rw [safeForO_full 1 b o h1 h2 hfull, safeForO_full 0 b o h1 h2 hfull]
      · rw [safeForO_xwin 1 b o h1 h2, safeForO_xwin 0 b o h1 h2]
    · rw [safeForO_owin 1 b o h1, safeForO_owin 0 b o h1]
  | succ f ih =>
    intro b o hc
    rcases h1 : minimaxWinChecker b AI_O with _ | _
    · rcases h2 : minimaxWinChecker b PLAYER_X with _ | _
      · rcases h3 : isBoardFull b with _ | _
        · rcases o with _ | _
          · rw [safeForO_step_all (f + 1) b h1 h2 h3,
              safeForO_step_all f b h1 h2 h3]
            refine all_congr_mem _ _ _ ?_
            intro j hj
            obtain ⟨hjlt, hje⟩ := (mem_getEmptySpots b j).mp hj
            have hcs := count_set_succ b j PLAYER_X hjlt hje (by decide)
            exact ih (b.set j PLAYER_X) true (by omega)
          · rw [safeForO_step_any (f + 1) b h1 h2 h3,
              safeForO_step_any f b h1 h2 h3]
            refine any_congr_mem _ _ _ ?_
            intro m hm
            obtain ⟨hmlt, hme⟩ := (mem_getEmptySpots b m).mp hm
            have hcs := count_set_succ b m AI_O hmlt hme (by decide)
            exact ih (b.set m AI_O) false (by omega)
        · rw [safeForO_full (f + 2) b o h1 h2 h3,
            safeForO_full (f + 1) b o h1 h2 h3]
      · rw [safeForO_xwin (f + 2) b o h1 h2, safeForO_xwin (f + 1) b o h1 h2]
    · rw [safeForO_owin (f + 2) b o h1, safeForO_owin (f + 1) b o h1]

theorem safeForO_eq_count (f : Nat) : ∀ (b : List String) (o : Bool),
    b.count EMPTY ≤ f → safeForO f b o = safeForO (b.count EMPTY) b o := by
  induction f with
  | zero =>
    intro b o hc
    rw [Nat.le_zero.mp hc]
  | succ f ih =>
    intro b o hc
    rcases Nat.lt_or_ge (b.count EMPTY) (f + 1) with hlt | hge
    · have hle : b.count EMPTY ≤ f := by omega
      rw [safeForO_fuel_succ f b o hle, ih b o hle]
    · have : b.count EMPTY = f + 1 := by omega
      rw [this]

theorem safeForO_fuel_stable (f g : Nat) (b : List String) (o : Bool)
    (hf : b.count EMPTY ≤ f) (hg : b.count EMPTY ≤ g) :
    safeForO f b o = safeForO g b o := by
  rw [safeForO_eq_count f b o hf, safeForO_eq_count g b o hg]

/-- The central equivalence: on 9-cell boards the `minimax` score is
non-negative exactly when the AI has a strategy avoiding an `X` win. -/
theorem minimax_nonneg_iff_safe (fuel : Nat) :
    ∀ (b : List String) (d : Int) (p : Bool),
    b.length = 9 → 0 ≤ d → d + (b.count EMPTY : Int) ≤ 9 →
    b.count EMPTY ≤ fuel →
    (0 ≤ minimax fuel b d p ↔ safeForO fuel b p = true) := by
  induction fuel with
  | zero =>
    intro b d p h9 hd hc hf
    have hcount : (0 : Int) ≤ (b.count EMPTY : Int) := Int.natCast_nonneg _
    have hfull : isBoardFull b = true :=
      (count_empty_eq_zero_iff b).mp (Nat.le_zero.mp hf)
    rcases h1 : minimaxWinChecker b AI_O with _ | _
    · rcases h2 : minimaxWinChecker b PLAYER_X with _ | _
      · rw [minimax_full 0 b d p h1 h2 hfull, safeForO_full 0 b p h1 h2 hfull]
        simp
      · rw [minimax_xwin 0 b d p h1 h2, safeForO_xwin 0 b p h1 h2]
        simp
        omega
    · rw [minimax_owin 0 b d p h1, safeForO_owin 0 b p h1]
      simp
      omega
  | succ f ih =>
    intro b d p h9 hd hc hf
    have hcount : (0 : Int) ≤ (b.count EMPTY : Int) := Int.natCast_nonneg _
    rcases h1 : minimaxWinChecker b AI_O with _ | _
    · rcases h2 : minimaxWinChecker b PLAYER_X with _ | _
      · rcases h3 : isBoardFull b with _ | _
        · rcases p with _ | _
          · -- X (minimizer) to move
            rw [minimax_step_min f b d h1 h2 h3, safeForO_step_all f b h1 h2 h3]
            constructor
            · intro hv
              rw [List.all_eq_true]
              intro j hj
              obtain ⟨hjlt, hje⟩ := (mem_getEmptySpots b j).mp hj
              have hcs := count_set_succ b j PLAYER_X hjlt hje (by decide)
              have hle := gfold_min_le_of_mem
                (fun i => b.getD i "" == EMPTY)
                (fun i => minimax f (b.set i PLAYER_X) (d + 1) true)
                (List.range 9) j goIntPosInf
                (List.mem_range.mpr (h9 ▸ hjlt)) (beq_empty_of_eq hje)
              have hiff := ih (b.set j PLAYER_X) (d + 1) true
                (by rw [List.length_set, h9]) (by omega) (by omega) (by omega)
              exact hiff.mp (by exact le_trans hv hle)
            · intro hall
              rw [List.all_eq_true] at hall
              refine gfold_min_ge _ _ (List.range 9) 0 ?_ goIntPosInf
                (le_of_lt goIntPosInf_pos)
              intro i hi hPi
              have hilt : i < b.length := h9 ▸ List.mem_range.mp hi
              have hie : b.getD i "" = EMPTY := beq_iff_eq.mp hPi
              have hcs := count_set_succ b i PLAYER_X hilt hie (by decide)
              have hmem : i ∈ getEmptySpots b :=
                (mem_getEmptySpots b i).mpr ⟨hilt, hie⟩
              have hiff := ih (b.set i PLAYER_X) (d + 1) true
                (by rw [List.length_set, h9]) (by omega) (by omega) (by omega)
              show (0 : Int) ≤ minimax f (b.set i PLAYER_X) (d + 1) true
              exact hiff.mpr (hall i hmem)
          · -- AI (maximizer) to move
            rw [minimax_step_max f b d h1 h2 h3, safeForO_step_any f b h1 h2 h3]
            constructor
            · intro hv
              rcases gfold_max_attained
                  (fun i => b.getD i "" == EMPTY)
                  (fun i => minimax f (b.set i AI_O) (d + 1) false)
                  (List.range 9) (-goIntPosInf) with hinit | ⟨i, hi, hPi, heq⟩
              · rw [hinit] at hv
                have := goIntPosInf_pos
                omega
              · rw [List.any_eq_true]
                have hilt : i < b.length := h9 ▸ List.mem_range.mp hi
                have hie : b.getD i "" = EMPTY := beq_iff_eq.mp hPi
                have hcs := count_set_succ b i AI_O hilt hie (by decide)
                have hiff := ih (b.set i AI_O) (d + 1) false
                  (by rw [List.length_set, h9]) (by omega) (by omega) (by omega)
                refine ⟨i, (mem_getEmptySpots b i).mpr ⟨hilt, hie⟩, ?_⟩
                exact hiff.mp (by rw [heq] at hv; exact hv)
            · intro hany
              rw [List.any_eq_true] at hany
              obtain ⟨m, hm, hsafe⟩ := hany
              obtain ⟨hmlt, hme⟩ := (mem_getEmptySpots b m).mp hm
              have hcs := count_set_succ b m AI_O hmlt hme (by decide)
              have hiff := ih (b.set m AI_O) (d + 1) false
                (by rw [List.length_set, h9]) (by omega) (by omega) (by omega)
              have hv0 : (0 : Int) ≤ minimax f (b.set m AI_O) (d + 1) false :=
                hiff.mpr hsafe
              refine le_trans hv0 ?_
              exact gfold_max_le_of_mem _ _ (List.range 9) m (-goIntPosInf)
                (List.mem_range.mpr (h9 ▸ hmlt)) (beq_empty_of_eq hme)
        · rw [minimax_full (f + 1) b d p h1 h2 h3,
            safeForO_full (f + 1) b p h1 h2 h3]
          simp
      · rw [minimax_xwin (f + 1) b d p h1 h2, safeForO_xwin (f + 1) b p h1 h2]
        simp
        omega
    · rw [minimax_owin (f + 1) b d p h1, safeForO_owin (f + 1) b p h1]
      simp
      omega

theorem xCannotBeatAI_step (f : Nat) (b : List String)
    (h1 : minimaxWinChecker b AI_O = false)
    (h2 : minimaxWinChecker b PLAYER_X = false)
    (h3 : isBoardFull b = false) :
    xCannotBeatAI (f + 1) b =
      ((getEmptySpots b).all fun j =>
        let afterX := b.set j PLAYER_X
        if minimaxWinChecker afterX PLAYER_X then false
        else if isBoardFull afterX then true
        else xCannotBeatAI f (oReply afterX)) := by
  rw [xCannotBeatAI_succ_def, h1, h2, h3]; simp

/-! ## The root loop of `findBestMoveMinimax` picks the first argmax -/

section RootFold

variable (P : Nat → Bool) (v : Nat → Int)

theorem rootfold_no_update (l : List Nat) :
    ∀ acc : Int × Int, (∀ i ∈ l, P i = true → v i ≤ acc.1) →
      l.foldl
        (fun acc i =>
          if P i then (if v i > acc.1 then (v i, (i : Int)) else acc) else acc)
        acc = acc := by
  induction l with
  | nil => intro acc _; rfl
  | cons hd tl ih =>
    intro acc hle
    simp only [List.foldl_cons]
    rcases hP : P hd with _ | _
    · simp only [Bool.false_eq_true, if_false]
      exact ih acc (fun i hi => hle i (List.mem_cons_of_mem _ hi))
    · simp only [if_pos]
      rw [if_neg (by have := hle hd (List.mem_cons_self _ _) hP; omega)]
      exact ih acc (fun i hi => hle i (List.mem_cons_of_mem _ hi))

theorem rootfold_first_max (m : Nat) (l₂ : List Nat) (hPm : P m = true)
    (hl₂ : ∀ i ∈ l₂, P i = true → v i ≤ v m) :
    ∀ (l₁ : List Nat) (acc : Int × Int),
      (∀ i ∈ l₁, P i = true → v i < v m) → acc.1 < v m →
      (l₁ ++ m :: l₂).foldl
        (fun acc i =>
          if P i then (if v i > acc.1 then (v i, (i : Int)) else acc) else acc)
        acc = (v m, (m : Int)) := by
  intro l₁
  induction l₁ with
  | nil =>
    intro acc _ hacc
    simp only [List.nil_append, List.foldl_cons]
    rw [hPm]
    simp only [if_pos]
    rw [if_pos (by omega)]
    exact rootfold_no_update P v l₂ _ (fun i hi hp => hl₂ i hi hp)
  | cons hd tl ih =>
    intro acc hl₁ hacc
    simp only [List.cons_append, List.foldl_cons]
    rcases hP : P hd with _ | _
    · simp only [Bool.false_eq_true, if_false]
      exact ih acc (fun i hi => hl₁ i (List.mem_cons_of_mem _ hi)) hacc
    · simp only [if_pos]
      by_cases hgt : v hd > acc.1
      · rw [if_pos hgt]
        exact ih _ (fun i hi => hl₁ i (List.mem_cons_of_mem _ hi))
          (hl₁ hd (List.mem_cons_self _ _) hP)
      · rw [if_neg hgt]
        exact ih acc (fun i hi => hl₁ i (List.mem_cons_of_mem _ hi)) hacc

end RootFold

theorem exists_argmax (v : Nat → Int) (l : List Nat) (hne : l ≠ []) :
    ∃ m ∈ l, ∀ i ∈ l, v i ≤ v m := by
  induction l with
  | nil => exact absurd rfl hne
  | cons hd tl ih =>
    cases tl with
    | nil =>
      exact ⟨hd, List.mem_cons_self _ _, by
        intro i hi
        rcases List.mem_cons.mp hi with rfl | h
        · exact le_refl _
        · simp at h⟩
    | cons a tl' =>
      obtain ⟨m, hm, hmax⟩ := ih (by simp)
      rcases le_total (v hd) (v m) with hle | hle
      · refine ⟨m, List.mem_cons_of_mem _ hm, ?_⟩
        intro i hi
        rcases List.mem_cons.mp hi with rfl | h
        · exact hle
        · exact hmax i h
      · refine ⟨hd, List.mem_cons_self _ _, ?_⟩
        intro i hi
        rcases List.mem_cons.mp hi with rfl | h
        · exact le_refl _
        · exact le_trans (hmax i h) hle

theorem range_split (n m : Nat) (hm : m < n) :
    ∃ l₂, List.range n = List.range m ++ m :: l₂ := by
  induction n with
  | zero => omega
  | succ n ih =>
    rcases Nat.lt_or_ge m n with hlt | hge
    · obtain ⟨l₂, hl₂⟩ := ih hlt
      refine ⟨l₂ ++ [n], ?_⟩
      rw [List.range_succ, hl₂]
      simp
    · have : m = n := by omega
      subst this
      refine ⟨[], ?_⟩
      rw [List.range_succ]

/-- Definitional unfolding of the root loop (stated for a variable board so
that instantiating it at a literal board stays cheap). -/
theorem findBestMoveMinimax_def (b : List String) : findBestMoveMinimax b =
    ((List.range 9).foldl
      (fun acc i =>
        if b.getD i "" == EMPTY then
          (if minimax 9 (b.set i AI_O) 0 false > acc.1 then
            (minimax 9 (b.set i AI_O) 0 false, (i : Int))
          else acc)
        else acc)
      (-goIntPosInf, -1)).2 := rfl

/-- The specification of `findBestMoveMinimax` on a board with at least one
empty cell: it returns the empty cell whose simulated move maximises the
minimax score, lowest index first among ties. -/
theorem selector_spec (b : List String) (h9 : b.length = 9)
    (hne : ∃ i, i < 9 ∧ b.getD i "" = EMPTY) :
    ∃ m : Nat, findBestMoveMinimax b = (m : Int) ∧ m < 9 ∧
      b.getD m "" = EMPTY ∧
      (∀ i, i < 9 → b.getD i "" = EMPTY →
        minimax 9 (b.set i AI_O) 0 false ≤ minimax 9 (b.set m AI_O) 0 false) ∧
      (∀ i, i < m → b.getD i "" = EMPTY →
        minimax 9 (b.set i AI_O) 0 false < minimax 9 (b.set m AI_O) 0 false) := by
  classical
  set v : Nat → Int := fun i => minimax 9 (b.set i AI_O) 0 false with hv
  -- an argmax over the (nonempty) list of empty spots
  have hspots_ne : getEmptySpots b ≠ [] := by
    obtain ⟨i, hi, he⟩ := hne
    intro hnil
    have : i ∈ getEmptySpots b := (mem_getEmptySpots b i).mpr ⟨h9 ▸ hi, he⟩
    rw [hnil] at this
    simp at this
  obtain ⟨m0, hm0, hmax0⟩ := exists_argmax v (getEmptySpots b) hspots_ne
  -- least argmax
  have hQ : ∃ k, k < 9 ∧ b.getD k "" = EMPTY ∧
      ∀ i, i < 9 → b.getD i "" = EMPTY → v i ≤ v k := by
    obtain ⟨hm0lt, hm0e⟩ := (mem_getEmptySpots b m0).mp hm0
    refine ⟨m0, h9 ▸ hm0lt, hm0e, ?_⟩
    intro i hi he
    exact hmax0 i ((mem_getEmptySpots b i).mpr ⟨h9 ▸ hi, he⟩)
  let k := Nat.find hQ
  obtain ⟨hklt, hke, hkmax⟩ : k < 9 ∧ b.getD k "" = EMPTY ∧
      ∀ i, i < 9 → b.getD i "" = EMPTY → v i ≤ v k := Nat.find_spec hQ
  have hkleast : ∀ i, i < k → b.getD i "" = EMPTY → v i < v k := by
    intro i hik hie
    have hi9 : i < 9 := by omega
    have hnq := Nat.find_min hQ hik
    rcases lt_or_le (v i) (v k) with h | h
    · exact h
    · exfalso
      apply hnq
      refine ⟨hi9, hie, ?_⟩
      intro j hj hje
      exact le_trans (hkmax j hj hje) h
  refine ⟨k, ?_, hklt, hke, hkmax, hkleast⟩
  -- evaluate the root fold
  obtain ⟨l₂, hl₂⟩ := range_split 9 k hklt
  have hdef : findBestMoveMinimax b =
      ((List.range 9).foldl
        (fun acc i =>
          if b.getD i "" == EMPTY then
            (if v i > acc.1 then (v i, (i : Int)) else acc)
          else acc)
        (-goIntPosInf, -1)).2 := rfl
  have hvlow : ∀ i, i < 9 → b.getD i "" = EMPTY → -10 ≤ v i := by
    intro i hi he
    have hcs := count_set_succ b i AI_O (h9 ▸ hi) he (by decide)
    have hcl := List.count_le_length EMPTY b
    have := minimax_lower 9 (b.set i AI_O) 0 false
      (by rw [List.length_set, h9]) (by omega)
      (by rw [h9] at hcl; omega)
    show (-10 : Int) ≤ minimax 9 (b.set i AI_O) 0 false
    omega
  have hfold := rootfold_first_max (fun i => b.getD i "" == EMPTY) v k l₂
    (beq_empty_of_eq hke)
    (by
      intro i hi hp
      have hi9 : i ∈ List.range 9 := by
        rw [hl₂]
        exact List.mem_append_right _ (List.mem_cons_of_mem _ hi)
      exact hkmax i (List.mem_range.mp hi9) (beq_iff_eq.mp hp))
    (List.range k) (-goIntPosInf, -1)
    (by
      intro i hi hp
      exact hkleast i (List.mem_range.mp hi) (beq_iff_eq.mp hp))
    (by
      have := hvlow k hklt hke
      have hbig : (10 : Int) < goIntPosInf := by norm_num [goIntPosInf]
      show -goIntPosInf < v k
      omega)
  rw [hdef, hl₂, hfold]

theorem selector_no_empty (b : List String)
    (hnone : ∀ i, i < 9 → b.getD i "" ≠ EMPTY) :
    findBestMoveMinimax b = -1 := by
  have hdef : findBestMoveMinimax b =
      ((List.range 9).foldl
        (fun acc i =>
          if b.getD i "" == EMPTY then
            (if minimax 9 (b.set i AI_O) 0 false > acc.1 then
              (minimax 9 (b.set i AI_O) 0 false, (i : Int))
            else acc)
          else acc)
        (-goIntPosInf, -1)).2 := rfl
  rw [hdef, rootfold_no_update (fun i => b.getD i "" == EMPTY)
    (fun i => minimax 9 (b.set i AI_O) 0 false) (List.range 9)
    (-goIntPosInf, -1)
    (fun i hi hp =>
      absurd (beq_iff_eq.mp hp) (hnone i (List.mem_range.mp hi)))]

theorem oReply_of_selector (b : List String) (m : Nat)
    (hsel : findBestMoveMinimax b = (m : Int)) (hme : b.getD m "" = EMPTY) :
    oReply b = b.set m AI_O := by
  have hbne : ((m : Int) != -1) = true := by
    simp only [bne_iff_ne, ne_eq]
    omega
  show (let bestMove := findBestMoveMinimax b;
    if bestMove != -1 && b.getD bestMove.toNat "" == EMPTY then
      b.set bestMove.toNat AI_O
    else b) = b.set m AI_O
  rw [hsel]
  simp only [Int.toNat_natCast, hbne, beq_empty_of_eq hme, Bool.and_self,
    if_pos]

/-- Core soundness of the playout: if the AI (through the selector) still
has a non-losing strategy with the opponent to move, the opponent cannot
beat the AI. -/
theorem safe_playout (fuel : Nat) : ∀ b : List String, b.length = 9 →
    b.count EMPTY ≤ fuel → safeForO 9 b false = true →
    xCannotBeatAI fuel b = true := by
  induction fuel with
  | zero =>
    intro b h9 hc hsafe
    have hfull : isBoardFull b = true :=
      (count_empty_eq_zero_iff b).mp (Nat.le_zero.mp hc)
    rcases h1 : minimaxWinChecker b AI_O with _ | _
    · rcases h2 : minimaxWinChecker b PLAYER_X with _ | _
      · exact xCannotBeatAI_full 0 b h1 h2 hfull
      · rw [safeForO_xwin 9 b false h1 h2] at hsafe
        cases hsafe
    · exact xCannotBeatAI_owin 0 b h1
  | succ f ih =>
    intro b h9 hc hsafe
    rcases h1 : minimaxWinChecker b AI_O with _ | _
    · rcases h2 : minimaxWinChecker b PLAYER_X with _ | _
      · rcases h3 : isBoardFull b with _ | _
        · -- non-terminal: the opponent moves at any empty cell j
          have hcount9 : b.count EMPTY ≤ 9 := h9 ▸ List.count_le_length EMPTY b
          rw [xCannotBeatAI_step f b h1 h2 h3, List.all_eq_true]
          intro j hj
          obtain ⟨hjlt, hje⟩ := (mem_getEmptySpots b j).mp hj
          have hcs := count_set_succ b j PLAYER_X hjlt hje (by decide)
          have hsafe1 : safeForO 9 (b.set j PLAYER_X) true = true := by
            have hunf := safeForO_step_all 8 b h1 h2 h3
            rw [show (8 : Nat) + 1 = 9 from rfl] at hunf
            rw [hunf, List.all_eq_true] at hsafe
            have h8 := hsafe j hj
            rw [safeForO_fuel_stable 8 9 (b.set j PLAYER_X) true
              (by omega) (by omega)] at h8
            exact h8
          have hO1 : minimaxWinChecker (b.set j PLAYER_X) AI_O = false := by
            rw [minimaxWinChecker_set_other b j PLAYER_X AI_O hje
              (by decide) (by decide)]
            exact h1
          show (let afterX := b.set j PLAYER_X;
            if minimaxWinChecker afterX PLAYER_X then false
            else if isBoardFull afterX then true
            else xCannotBeatAI f (oReply afterX)) = true
          rcases hx1 : minimaxWinChecker (b.set j PLAYER_X) PLAYER_X with _ | _
          · rcases hf1 : isBoardFull (b.set j PLAYER_X) with _ | _
            · simp only [hx1, hf1, Bool.false_eq_true, if_false]
              -- the AI replies through the selector
              have hlen1 : (b.set j PLAYER_X).length = 9 := by
                rw [List.length_set, h9]
              have hc1ne : (b.set j PLAYER_X).count EMPTY ≠ 0 := by
                intro h0
                rw [count_empty_eq_zero_iff] at h0
                rw [h0] at hf1
                cases hf1
              have hunf1 := safeForO_step_any 8 (b.set j PLAYER_X) hO1 hx1 hf1
              rw [show (8 : Nat) + 1 = 9 from rfl] at hunf1
              rw [hunf1, List.any_eq_true] at hsafe1
              obtain ⟨m', hm', hsafem'⟩ := hsafe1
              obtain ⟨hm'lt, hm'e⟩ := (mem_getEmptySpots _ m').mp hm'
              rw [hlen1] at hm'lt
              have hcs2 := count_set_succ (b.set j PLAYER_X) m' AI_O
                (hlen1 ▸ hm'lt) hm'e (by decide)
              have hsafem'9 :
                  safeForO 9 ((b.set j PLAYER_X).set m' AI_O) false = true := by
                rw [safeForO_fuel_stable 9 8 _ false (by omega) (by omega)]
                exact hsafem'
              have hlen2 : ((b.set j PLAYER_X).set m' AI_O).length = 9 := by
                rw [List.length_set, hlen1]
              have hv' : (0 : Int) ≤
                  minimax 9 ((b.set j PLAYER_X).set m' AI_O) 0 false :=
                (minimax_nonneg_iff_safe 9 _ 0 false hlen2 (le_refl 0)
                  (by omega) (by omega)).mpr hsafem'9
              obtain ⟨m, hselm, hmlt, hme, hmaxm, _⟩ :=
                selector_spec (b.set j PLAYER_X) hlen1 ⟨m', hm'lt, hm'e⟩
              have hcs3 := count_set_succ (b.set j PLAYER_X) m AI_O
                (hlen1 ▸ hmlt) hme (by decide)
              have hvm : (0 : Int) ≤
                  minimax 9 ((b.set j PLAYER_X).set m AI_O) 0 false :=
                le_trans hv' (hmaxm m' hm'lt hm'e)
              have hlen3 : ((b.set j PLAYER_X).set m AI_O).length = 9 := by
                rw [List.length_set, hlen1]
              have hsafem :
                  safeForO 9 ((b.set j PLAYER_X).set m AI_O) false = true :=
                (minimax_nonneg_iff_safe 9 _ 0 false hlen3 (le_refl 0)
                  (by omega) (by omega)).mp hvm
              rw [oReply_of_selector (b.set j PLAYER_X) m hselm hme]
              exact ih _ hlen3 (by omega) hsafem
            · simp only [hx1, hf1, Bool.false_eq_true, if_false, if_pos]
          · rw [safeForO_xwin 9 _ true hO1 hx1] at hsafe1
            cases hsafe1
        · exact xCannotBeatAI_full (f + 1) b h1 h2 h3
      · rw [safeForO_xwin 9 b false h1 h2] at hsafe
        cases hsafe
    · exact xCannotBeatAI_owin (f + 1) b h1

/-! ## Claim C1 -/

/-- **C1** (amended): for every 3x3 board (9 cells over `{"", "X", "O"}`)
with at least one empty cell, no existing winner for either mark, and from
which the AI still has some strategy avoiding an `X` win (the position is
not already a forced loss), the move returned by the exhaustive selector
`findBestMoveMinimax` never leads to a forced loss: for every opponent
strategy played out after the AI's move, with both sides thereafter moving
per the selector/minimax, the human mark `X` never completes a winning
line. -/
theorem c1_selector_move_never_forced_loss (b : List String)
    (h9 : b.length = 9)
    (_hcells : ∀ c ∈ b, c = EMPTY ∨ c = PLAYER_X ∨ c = AI_O)
    (hne : isBoardFull b = false)
    (how : minimaxWinChecker b AI_O = false)
    (hxw : minimaxWinChecker b PLAYER_X = false)
    (hnotlost : safeForO 9 b true = true) :
    selectorMoveSafe b = true := by
  obtain ⟨i0, hi0, he0⟩ := exists_empty_of_not_full b hne
  have hcount9 : b.count EMPTY ≤ 9 := h9 ▸ List.count_le_length EMPTY b
  have hunf := safeForO_step_any 8 b how hxw hne
  rw [show (8 : Nat) + 1 = 9 from rfl] at hunf
  rw [hunf, List.any_eq_true] at hnotlost
  obtain ⟨m', hm', hsafem'⟩ := hnotlost
  obtain ⟨hm'lt, hm'e⟩ := (mem_getEmptySpots b m').mp hm'
  have hcs := count_set_succ b m' AI_O hm'lt hm'e (by decide)
  have hsafem'9 : safeForO 9 (b.set m' AI_O) false = true := by
    rw [safeForO_fuel_stable 9 8 _ false (by omega) (by omega)]
    exact hsafem'
  have hlen1 : (b.set m' AI_O).length = 9 := by rw [List.length_set, h9]
  have hv' : (0 : Int) ≤ minimax 9 (b.set m' AI_O) 0 false :=
    (minimax_nonneg_iff_safe 9 _ 0 false hlen1 (le_refl 0)
      (by omega) (by omega)).mpr hsafem'9
  obtain ⟨m, hselm, hmlt, hme, hmaxm, _⟩ :=
    selector_spec b h9 ⟨m', h9 ▸ hm'lt, hm'e⟩
  have hcs2 := count_set_succ b m AI_O (h9 ▸ hmlt) hme (by decide)
  have hvm : (0 : Int) ≤ minimax 9 (b.set m AI_O) 0 false :=
    le_trans hv' (hmaxm m' (h9 ▸ hm'lt) hm'e)
  have hlen2 : (b.set m AI_O).length = 9 := by rw [List.length_set, h9]
  have hsafem : safeForO 9 (b.set m AI_O) false = true :=
    (minimax_nonneg_iff_safe 9 _ 0 false hlen2 (le_refl 0)
      (by omega) (by omega)).mp hvm
  rw [selectorMoveSafe, oReply_of_selector b m hselm hme]
  exact safe_playout 9 _ hlen2 (by omega) hsafem

set_option maxRecDepth 100000 in
set_option maxHeartbeats 4000000 in
/-- Counterexample to C1 as literally stated: on the board with `X` at
cells 0, 2 and 6 (a triple fork; no winner yet, six empty cells) every
hypothesis of the claim holds, yet the opponent beats the AI after the
selector's move. -/
theorem c1_counterexample :
    ((["X", "", "X", "", "", "", "X", "", ""] : List String).length = 9 ∧
      (∀ c ∈ (["X", "", "X", "", "", "", "X", "", ""] : List String),
        c = EMPTY ∨ c = PLAYER_X ∨ c = AI_O) ∧
      isBoardFull ["X", "", "X", "", "", "", "X", "", ""] = false ∧
      minimaxWinChecker ["X", "", "X", "", "", "", "X", "", ""] AI_O = false ∧
      minimaxWinChecker ["X", "", "X", "", "", "", "X", "", ""] PLAYER_X
        = false) ∧
    selectorMoveSafe ["X", "", "X", "", "", "", "X", "", ""] = false := by
  refine ⟨by decide, ?_⟩
  have hsel : findBestMoveMinimax ["X", "", "X", "", "", "", "X", "", ""] = 1 := by
    decide
  rw [selectorMoveSafe, oReply_of_selector _ 1 hsel (by decide)]
  decide

/-- Witness for C1 at a concrete board satisfying all hypotheses. -/
theorem c1_witness :
    selectorMoveSafe ["X", "O", "X", "O", "X", "O", "O", "X", ""] = true :=
  c1_selector_move_never_forced_loss
    ["X", "O", "X", "O", "X", "O", "O", "X", ""]
    (by decide) (by decide) (by decide) (by decide) (by decide) (by decide)

/-! ## Claims C2 and C4 -/

theorem full_getD_ne (b : List String) (h : isBoardFull b = true)
    (i : Nat) (hi : i < b.length) : b.getD i "" ≠ EMPTY := by
  rw [isBoardFull, List.all_eq_true] at h
  intro he
  have hmem : b.getD i "" ∈ b := by
    rw [List.getD_eq_getElem _ _ hi]
    exact List.getElem_mem hi
  have hcell := h _ hmem
  rw [he] at hcell
  simp [EMPTY] at hcell

theorem aiMove3_of_selector (cornerOrder : List Nat) (pick : Nat)
    (b : List String) (w : String) (m : Nat)
    (hsel : findBestMoveMinimax b = (m : Int)) (hme : b.getD m "" = EMPTY) :
    aiMove cornerOrder pick ⟨b, 3, w⟩ = ⟨b.set m AI_O, 3, w⟩ := by
  have hbne : ((m : Int) != -1) = true := by
    simp only [bne_iff_ne, ne_eq]
    omega
  simp only [aiMove, if_pos]
  rw [hsel]
  simp only [Int.toNat_natCast, hbne, beq_empty_of_eq hme, Bool.and_self,
    if_pos]

/-- **C2**: on every 9-cell board with an empty cell, the exhaustive
selector returns the index of an empty cell (and `aiMove` then places an
`O` there); the `-1` sentinel is returned exactly on full boards. -/
theorem c2_selector_valid_sentinel_only_full (b : List String)
    (h9 : b.length = 9) :
    (isBoardFull b = false →
      ∃ m : Nat, findBestMoveMinimax b = (m : Int) ∧ m < 9 ∧
        b.getD m "" = EMPTY ∧
        ∀ (cornerOrder : List Nat) (pick : Nat) (w : String),
          aiMove cornerOrder pick ⟨b, 3, w⟩ = ⟨b.set m AI_O, 3, w⟩) ∧
    (isBoardFull b = true → findBestMoveMinimax b = -1) := by
  constructor
  · intro hne
    obtain ⟨i0, hi0, he0⟩ := exists_empty_of_not_full b hne
    obtain ⟨m, hsel, hmlt, hme, _, _⟩ := selector_spec b h9 ⟨i0, h9 ▸ hi0, he0⟩
    exact ⟨m, hsel, hmlt, hme,
      fun co pk w => aiMove3_of_selector co pk b w m hsel hme⟩
  · intro hfull
    exact selector_no_empty b (fun i hi => full_getD_ne b hfull i (h9 ▸ hi))

/-- Witness for C2 at a concrete board with one empty cell. -/
theorem c2_witness :
    ∃ m : Nat,
      findBestMoveMinimax ["O", "X", "O", "X", "O", "X", "X", "O", ""]
        = (m : Int) ∧ m < 9 ∧
      (["O", "X", "O", "X", "O", "X", "X", "O", ""] : List String).getD m ""
        = EMPTY ∧
      ∀ (cornerOrder : List Nat) (pick : Nat) (w : String),
        aiMove cornerOrder pick
          ⟨["O", "X", "O", "X", "O", "X", "X", "O", ""], 3, w⟩
          = ⟨(["O", "X", "O", "X", "O", "X", "X", "O", ""] : List String).set
              m AI_O, 3, w⟩ :=
  (c2_selector_valid_sentinel_only_full
    ["O", "X", "O", "X", "O", "X", "X", "O", ""] (by decide)).1 (by decide)

/-- **C4**: the selector returns exactly the empty cell maximising the
minimax score of the simulated move (opponent to move next, depth 0),
breaking ties by the lowest index. -/
theorem c4_selector_first_argmax (b : List String) (h9 : b.length = 9)
    (hne : isBoardFull b = false) :
    ∃ m : Nat, findBestMoveMinimax b = (m : Int) ∧ m < 9 ∧
      b.getD m "" = EMPTY ∧
      (∀ i, i < 9 → b.getD i "" = EMPTY →
        minimax 9 (b.set i AI_O) 0 false ≤ minimax 9 (b.set m AI_O) 0 false) ∧
      (∀ i, i < m → b.getD i "" = EMPTY →
        minimax 9 (b.set i AI_O) 0 false < minimax 9 (b.set m AI_O) 0 false)
    := by
  obtain ⟨i0, hi0, he0⟩ := exists_empty_of_not_full b hne
  exact selector_spec b h9 ⟨i0, h9 ▸ hi0, he0⟩

/-- Witness for C4 at a concrete board with one empty cell. -/
theorem c4_witness :
    ∃ m : Nat,
      findBestMoveMinimax ["", "X", "O", "X", "O", "X", "O", "X", "O"]
        = (m : Int) ∧ m < 9 ∧
      (["", "X", "O", "X", "O", "X", "O", "X", "O"] : List String).getD m ""
        = EMPTY ∧
      (∀ i, i < 9 →
        (["", "X", "O", "X", "O", "X", "O", "X", "O"] : List String).getD i ""
          = EMPTY →
        minimax 9
          ((["", "X", "O", "X", "O", "X", "O", "X", "O"] : List String).set
            i AI_O) 0 false ≤
        minimax 9
          ((["", "X", "O", "X", "O", "X", "O", "X", "O"] : List String).set
            m AI_O) 0 false) ∧
      (∀ i, i < m →
        (["", "X", "O", "X", "O", "X", "O", "X", "O"] : List String).getD i ""
          = EMPTY →
        minimax 9
          ((["", "X", "O", "X", "O", "X", "O", "X", "O"] : List String).set
            i AI_O) 0 false <
        minimax 9
          ((["", "X", "O", "X", "O", "X", "O", "X", "O"] : List String).set
            m AI_O) 0 false) :=
  c4_selector_first_argmax ["", "X", "O", "X", "O", "X", "O", "X", "O"]
    (by decide) (by decide)

/-! ## Claim C3 -/

/-- A non-terminal position with the maximiser to move is worth at least
`d - 9`: the maximiser has a move, and nothing below scores under
`(d+1) - 10`. -/
theorem minimax_max_lower (f : Nat) (b : List String) (d : Int)
    (h9 : b.length = 9) (hd : 0 ≤ d) (hc : d + (b.count EMPTY : Int) ≤ 9)
    (h1 : minimaxWinChecker b AI_O = false)
    (h2 : minimaxWinChecker b PLAYER_X = false)
    (h3 : isBoardFull b = false) :
    d - 9 ≤ minimax (f + 1) b d true := by
  rw [minimax_step_max f b d h1 h2 h3]
  obtain ⟨i0, hi0, he0⟩ := exists_empty_of_not_full b h3
  have hcs := count_set_succ b i0 AI_O hi0 he0 (by decide)
  have hlow := minimax_lower f (b.set i0 AI_O) (d + 1) false
    (by rw [List.length_set, h9]) (by omega) (by omega)
  refine le_trans ?_ (gfold_max_le_of_mem _ _ (List.range 9) i0 (-goIntPosInf)
    (List.mem_range.mpr (h9 ▸ hi0)) (beq_empty_of_eq he0))
  show d - 9 ≤ minimax f (b.set i0 AI_O) (d + 1) false
  omega

/-- If some opponent reply at `j` wins immediately, the minimiser value of
the position is at most `-9`. -/
theorem minimax_min_le_neg9 (b : List String)
    (h1 : minimaxWinChecker b AI_O = false)
    (h2 : minimaxWinChecker b PLAYER_X = false)
    (h3 : isBoardFull b = false) (j : Nat) (hj : j < 9)
    (hje : b.getD j "" = EMPTY)
    (hO : minimaxWinChecker (b.set j PLAYER_X) AI_O = false)
    (hwin : minimaxWinChecker (b.set j PLAYER_X) PLAYER_X = true) :
    minimax 9 b 0 false ≤ -9 := by
  rw [show (9 : Nat) = 8 + 1 from rfl, minimax_step_min 8 b 0 h1 h2 h3]
  refine le_trans (gfold_min_le_of_mem _ _ (List.range 9) j goIntPosInf
    (List.mem_range.mpr hj) (beq_empty_of_eq hje)) ?_
  show minimax 8 (b.set j PLAYER_X) (0 + 1) true ≤ -9
  rw [minimax_xwin 8 _ (0 + 1) true hO hwin]
  norm_num

/-- If no opponent reply wins immediately (and none ends the game), the
minimiser value of the position is at least `-8`. -/
theorem minimax_min_lower8 (b : List String) (h9 : b.length = 9)
    (h1 : minimaxWinChecker b AI_O = false)
    (h2 : minimaxWinChecker b PLAYER_X = false)
    (h3 : isBoardFull b = false)
    (hnowin : ∀ j, j < 9 → b.getD j "" = EMPTY →
      minimaxWinChecker (b.set j PLAYER_X) AI_O = false ∧
      minimaxWinChecker (b.set j PLAYER_X) PLAYER_X = false ∧
      isBoardFull (b.set j PLAYER_X) = false) :
    (-8 : Int) ≤ minimax 9 b 0 false := by
  have hcount9 : b.count EMPTY ≤ 9 := h9 ▸ List.count_le_length EMPTY b
  rw [show (9 : Nat) = 8 + 1 from rfl, minimax_step_min 8 b 0 h1 h2 h3]
  refine gfold_min_ge _ _ (List.range 9) (-8) ?_ goIntPosInf
    (by norm_num [goIntPosInf])
  intro j hj hp
  have hj9 : j < 9 := List.mem_range.mp hj
  have hje : b.getD j "" = EMPTY := beq_iff_eq.mp hp
  obtain ⟨hO, hw, hf⟩ := hnowin j hj9 hje
  have hcs := count_set_succ b j PLAYER_X (h9 ▸ hj9) hje (by decide)
  have hml := minimax_max_lower 7 (b.set j PLAYER_X) (0 + 1)
    (by rw [List.length_set, h9]) (by norm_num) (by omega) hO hw hf
  show (-8 : Int) ≤ minimax 8 (b.set j PLAYER_X) (0 + 1) true
  rw [show (8 : Nat) = 7 + 1 from rfl]
  omega

/-- **C3**: on the board `["X","X","","","","","","",""]` the exhaustive
selector blocks at index 2, the handler places `"O"` there, and the
response's winner field stays `""`. -/
theorem c3_selector_blocks_winner_empty :
    findBestMoveMinimax ["X", "X", "", "", "", "", "", "", ""] = 2 ∧
    ∀ (cornerOrder : List Nat) (pick : Nat),
      playLogic cornerOrder pick
        ⟨["X", "X", "", "", "", "", "", "", ""], 3, ""⟩
        = ⟨["X", "X", "O", "", "", "", "", "", ""], 3, ""⟩ := by
  have hv2 : (-8 : Int) ≤ minimax 9
      ((["X", "X", "", "", "", "", "", "", ""] : List String).set 2 AI_O)
      0 false :=
    minimax_min_lower8 _ (by decide) (by decide) (by decide) (by decide)
      (by decide)
  have hbound : ∀ i ∈ [3, 4, 5, 6, 7, 8],
      minimax 9
        ((["X", "X", "", "", "", "", "", "", ""] : List String).set i AI_O)
        0 false ≤ -9 := by
    intro i hi
    fin_cases hi <;>
      exact minimax_min_le_neg9 _ (by decide) (by decide) (by decide) 2
        (by decide) (by decide) (by decide) (by decide)
  have hsel : findBestMoveMinimax ["X", "X", "", "", "", "", "", "", ""]
      = 2 := by
    have hdef :=
      findBestMoveMinimax_def ["X", "X", "", "", "", "", "", "", ""]
    have hsplit : List.range 9 = [0, 1] ++ 2 :: [3, 4, 5, 6, 7, 8] := by
      decide
    rw [hdef, hsplit, rootfold_first_max
      (fun i =>
        (["X", "X", "", "", "", "", "", "", ""] : List String).getD i ""
          == EMPTY)
      (fun i => minimax 9
        ((["X", "X", "", "", "", "", "", "", ""] : List String).set i AI_O)
        0 false)
      2 [3, 4, 5, 6, 7, 8] (by decide)
      (by
        intro i hi hp
        have hb := hbound i hi
        show minimax 9
            ((["X", "X", "", "", "", "", "", "", ""] : List String).set
              i AI_O) 0 false ≤
          minimax 9
            ((["X", "X", "", "", "", "", "", "", ""] : List String).set
              2 AI_O) 0 false
        omega)
      [0, 1] (-goIntPosInf, -1)
      (by
        intro i hi hp
        fin_cases hi <;> exact absurd hp (by decide))
      (by
        show -goIntPosInf < minimax 9
          ((["X", "X", "", "", "", "", "", "", ""] : List String).set
            2 AI_O) 0 false
        have hbig : (10 : Int) < goIntPosInf := by norm_num [goIntPosInf]
        omega)]
    rfl
  refine ⟨hsel, ?_⟩
  intro cornerOrder pick
  have hmove := aiMove3_of_selector cornerOrder pick
    ["X", "X", "", "", "", "", "", "", ""] "" 2 hsel (by decide)
  have hset : (["X", "X", "", "", "", "", "", "", ""] : List String).set
      2 AI_O = ["X", "X", "O", "", "", "", "", "", ""] := by decide
  rw [hset] at hmove
  have hx : checkWinner ["X", "X", "", "", "", "", "", "", ""] PLAYER_X 3
      = false := by decide
  have hf : isBoardFull ["X", "X", "", "", "", "", "", "", ""] = false := by
    decide
  have ho : checkWinner ["X", "X", "O", "", "", "", "", "", ""] AI_O 3
      = false := by decide
  have hf2 : isBoardFull ["X", "X", "O", "", "", "", "", "", ""] = false := by
    decide
  simp only [playLogic, hx, hf, hmove, ho, hf2, Bool.false_eq_true, if_false]

/-! ## Claim C5 -/

theorem find?_spots_spec (board : List String) (p : Nat → Bool) (m : Nat)
    (h : (getEmptySpots board).find? p = some m) :
    m < board.length ∧ board.getD m "" = EMPTY ∧ p m = true ∧
      ∀ i, i < m → board.getD i "" = EMPTY → p i = false := by
  obtain ⟨hm, hpm, hleast⟩ :=
    find?_sorted_least _ p (getEmptySpots_pairwise board) m h
  obtain ⟨hlt, he⟩ := (mem_getEmptySpots board m).mp hm
  refine ⟨hlt, he, hpm, ?_⟩
  intro i hi hie
  exact hleast i
    ((mem_getEmptySpots board i).mpr ⟨by omega, hie⟩) hi

theorem find?_spots_some (board : List String) (p : Nat → Bool) (i : Nat)
    (hi : i < board.length) (hie : board.getD i "" = EMPTY)
    (hpi : p i = true) :
    ∃ m, (getEmptySpots board).find? p = some m := by
  rcases hf : (getEmptySpots board).find? p with _ | m
  · exfalso
    have := (find?_eq_none_iff _ p).mp hf i
      ((mem_getEmptySpots board i).mpr ⟨hi, hie⟩)
    rw [hpi] at this
    cases this
  · exact ⟨m, rfl⟩

theorem spots_isEmpty_false (board : List String)
    (hne : isBoardFull board = false) :
    (getEmptySpots board).isEmpty = false := by
  obtain ⟨i0, hi0, he0⟩ := exists_empty_of_not_full board hne
  have hmem := (mem_getEmptySpots board i0).mpr ⟨hi0, he0⟩
  rcases hie : (getEmptySpots board).isEmpty with _ | _
  · rfl
  · rw [List.isEmpty_iff.mp hie] at hmem
    simp at hmem

/-- **C5**: on any board with an empty cell and `n ≠ 3`, the heuristic
selector takes the lowest-index immediate win if one exists, otherwise the
lowest-index block of an immediate opponent win, and only otherwise falls
through to the center/corner/random stages. -/
theorem c5_heuristic_priority (cornerOrder : List Nat) (pick : Nat)
    (board : List String) (n : Nat) (_hn : n ≠ 3)
    (hne : isBoardFull board = false) :
    ((∃ i, i < board.length ∧ board.getD i "" = EMPTY ∧
        checkWinner (board.set i AI_O) AI_O n = true) →
      ∃ m : Nat, findBestMoveHeuristic cornerOrder pick board n = (m : Int) ∧
        m < board.length ∧ board.getD m "" = EMPTY ∧
        checkWinner (board.set m AI_O) AI_O n = true ∧
        ∀ i, i < m → board.getD i "" = EMPTY →
          checkWinner (board.set i AI_O) AI_O n = false) ∧
    ((∀ i, i < board.length → board.getD i "" = EMPTY →
        checkWinner (board.set i AI_O) AI_O n = false) →
      (∃ i, i < board.length ∧ board.getD i "" = EMPTY ∧
        checkWinner (board.set i PLAYER_X) PLAYER_X n = true) →
      ∃ m : Nat, findBestMoveHeuristic cornerOrder pick board n = (m : Int) ∧
        m < board.length ∧ board.getD m "" = EMPTY ∧
        checkWinner (board.set m PLAYER_X) PLAYER_X n = true ∧
        ∀ i, i < m → board.getD i "" = EMPTY →
          checkWinner (board.set i PLAYER_X) PLAYER_X n = false) ∧
    ((∀ i, i < board.length → board.getD i "" = EMPTY →
        checkWinner (board.set i AI_O) AI_O n = false) →
      (∀ i, i < board.length → board.getD i "" = EMPTY →
        checkWinner (board.set i PLAYER_X) PLAYER_X n = false) →
      findBestMoveHeuristic cornerOrder pick board n =
        heuristicFallThrough cornerOrder pick board n) := by
  have hspots := spots_isEmpty_false board hne
  refine ⟨?_, ?_, ?_⟩
  · rintro ⟨i, hi, hie, hwin⟩
    obtain ⟨m, hfind⟩ := find?_spots_some board
      (fun move => checkWinner (board.set move AI_O) AI_O n) i hi hie hwin
    obtain ⟨hmlt, hme, hpm, hleast⟩ := find?_spots_spec board _ m hfind
    refine ⟨m, ?_, hmlt, hme, hpm, hleast⟩
    simp only [findBestMoveHeuristic, hspots, hfind, Bool.false_eq_true,
      if_false]
  · intro hnowin hblock
    obtain ⟨i, hi, hie, hwin⟩ := hblock
    have hfindO : (getEmptySpots board).find?
        (fun move => checkWinner (board.set move AI_O) AI_O n) = none := by
      rw [find?_eq_none_iff]
      intro j hj
      obtain ⟨hjlt, hje⟩ := (mem_getEmptySpots board j).mp hj
      exact hnowin j hjlt hje
    obtain ⟨m, hfind⟩ := find?_spots_some board
      (fun move => checkWinner (board.set move PLAYER_X) PLAYER_X n)
      i hi hie hwin
    obtain ⟨hmlt, hme, hpm, hleast⟩ := find?_spots_spec board _ m hfind
    refine ⟨m, ?_, hmlt, hme, hpm, hleast⟩
    simp only [findBestMoveHeuristic, hspots, hfindO, hfind,
      Bool.false_eq_true, if_false]
  · intro hnowin hnoblock
    have hfindO : (getEmptySpots board).find?
        (fun move => checkWinner (board.set move AI_O) AI_O n) = none := by
      rw [find?_eq_none_iff]
      intro j hj
      obtain ⟨hjlt, hje⟩ := (mem_getEmptySpots board j).mp hj
      exact hnowin j hjlt hje
    have hfindX : (getEmptySpots board).find?
        (fun move => checkWinner (board.set move PLAYER_X) PLAYER_X n)
        = none := by
      rw [find?_eq_none_iff]
      intro j hj
      obtain ⟨hjlt, hje⟩ := (mem_getEmptySpots board j).mp hj
      exact hnoblock j hjlt hje
    simp only [findBestMoveHeuristic, hspots, hfindO, hfindX,
      Bool.false_eq_true, if_false]

/-- Witness for C5: a 2x2 board where placing the AI mark at cell 1
completes the top row. -/
theorem c5_witness :
    ∃ m : Nat,
      findBestMoveHeuristic [] 0 ["O", "", "", ""] 2 = (m : Int) ∧
      m < (["O", "", "", ""] : List String).length ∧
      (["O", "", "", ""] : List String).getD m "" = EMPTY ∧
      checkWinner ((["O", "", "", ""] : List String).set m AI_O) AI_O 2
        = true ∧
      ∀ i, i < m → (["O", "", "", ""] : List String).getD i "" = EMPTY →
        checkWinner ((["O", "", "", ""] : List String).set i AI_O) AI_O 2
          = false :=
  (c5_heuristic_priority [] 0 ["O", "", "", ""] 2 (by decide) (by decide)).1
    ⟨1, by decide, by decide, by decide⟩

/-! ## Claim C6 -/

/-- **C6**: at board size 3 the hardcoded 8-triple checker of the minimax
search, the generalized N-scan checker, and the table-driven 8-triple
checker of the earlier source file compute the same predicate, for every
9-cell board and every mark. -/
theorem c6_win_checkers_agree (b : List String) (p : String)
    (h9 : b.length = 9) :
    minimaxWinChecker b p = checkWinner b p 3 ∧
      checkWinner b p 3 = Part000.checkWinner b p := by
  rcases b with _ | ⟨a0, b⟩; · simp at h9
  rcases b with _ | ⟨a1, b⟩; · simp at h9
  rcases b with _ | ⟨a2, b⟩; · simp at h9
  rcases b with _ | ⟨a3, b⟩; · simp at h9
  rcases b with _ | ⟨a4, b⟩; · simp at h9
  rcases b with _ | ⟨a5, b⟩; · simp at h9
  rcases b with _ | ⟨a6, b⟩; · simp at h9
  rcases b with _ | ⟨a7, b⟩; · simp at h9
  rcases b with _ | ⟨a8, b⟩; · simp at h9
  rcases b with _ | ⟨a9, b⟩
  · constructor
    · simp [minimaxWinChecker, checkWinner,
        show List.range 3 = [0, 1, 2] from rfl, Bool.or_assoc, Bool.and_assoc]
    · simp [Part000.checkWinner, checkWinner,
        show List.range 3 = [0, 1, 2] from rfl, Bool.or_assoc, Bool.and_assoc]
  · simp at h9

/-- Witness for C6 at a concrete board and mark. -/
theorem c6_witness :
    minimaxWinChecker ["X", "X", "X", "O", "O", "", "", "", ""] "X"
        = checkWinner ["X", "X", "X", "O", "O", "", "", "", ""] "X" 3 ∧
      checkWinner ["X", "X", "X", "O", "O", "", "", "", ""] "X" 3
        = Part000.checkWinner ["X", "X", "X", "O", "O", "", "", "", ""] "X" :=
  c6_win_checkers_agree ["X", "X", "X", "O", "O", "", "", "", ""] "X"
    (by decide)

/-! ## Claim C7 -/

/-- Counterexample to C7 as literally stated: contrary to its sentence
about the zero-length board, `isBoardFull` returns `true` there (the loop
body never runs). -/
theorem c7_counterexample : ¬ isBoardFull ([] : List String) = false := by
  decide

/-- **C7** (amended): `isBoardFull` returns true iff no cell equals the
empty value, for boards of every length; on the zero-length board it
therefore returns `true` (vacuously full), and the copy in the earlier
source file is the same function. -/
theorem c7_isBoardFull_iff (b : List String) :
    (isBoardFull b = true ↔ ∀ c ∈ b, c ≠ EMPTY) ∧
      isBoardFull ([] : List String) = true ∧
      Part000.isBoardFull b = isBoardFull b := by
  refine ⟨?_, rfl, rfl⟩
  rw [isBoardFull, List.all_eq_true]
  constructor
  · intro h c hc he
    have hcell := h c hc
    rw [he] at hcell
    simp [EMPTY] at hcell
  · intro h c hc
    have hne := h c hc
    rw [beq_eq_false_iff_ne.mpr hne]
    rfl

/-- Witness for C7 at concrete boards. -/
theorem c7_witness :
    (isBoardFull ["X", "O"] = true ↔ ∀ c ∈ (["X", "O"] : List String),
      c ≠ EMPTY) ∧
    isBoardFull ([] : List String) = true ∧
    Part000.isBoardFull ["X", "O"] = isBoardFull ["X", "O"] :=
  c7_isBoardFull_iff ["X", "O"]

/-! ## Claim C8 -/

theorem set_empty_self (b : List String) (i : Nat)
    (he : b.getD i "" = EMPTY) : b.set i EMPTY = b := by
  induction b generalizing i with
  | nil => rfl
  | cons hd tl ih =>
    cases i with
    | zero =>
      simp only [List.getD_cons_zero] at he
      rw [List.set_cons_zero, he]
    | succ i =>
      simp only [List.getD_cons_succ] at he
      rw [List.set_cons_succ, ih i he]

theorem minimaxMut_zero_def (b : List String) (d : Int) (p : Bool) :
    minimaxMut 0 b d p =
      (if minimaxWinChecker b AI_O then (10 - d, b)
      else if minimaxWinChecker b PLAYER_X then (d - 10, b)
      else if isBoardFull b then (0, b)
      else (0, b)) := rfl

theorem minimaxMut_succ_def (f : Nat) (b : List String) (d : Int)
    (p : Bool) :
    minimaxMut (f + 1) b d p =
      (if minimaxWinChecker b AI_O then (10 - d, b)
      else if minimaxWinChecker b PLAYER_X then (d - 10, b)
      else if isBoardFull b then (0, b)
      else
        if p then
          (List.range 9).foldl
            (fun (acc : Int × List String) i =>
              if acc.2.getD i "" == EMPTY then
                let rec1 := minimaxMut f (acc.2.set i AI_O) (d + 1) false
                (max acc.1 rec1.1, rec1.2.set i EMPTY)
              else acc)
            (-goIntPosInf, b)
        else
          (List.range 9).foldl
            (fun (acc : Int × List String) i =>
              if acc.2.getD i "" == EMPTY then
                let rec1 := minimaxMut f (acc.2.set i PLAYER_X) (d + 1) true
                (min acc.1 rec1.1, rec1.2.set i EMPTY)
              else acc)
            (goIntPosInf, b)) := rfl

theorem mutfold_eq (b : List String) (comb : Int → Int → Int) (mark : String)
    (Fm : List String → Int × List String) (Fp : List String → Int)
    (hF : ∀ b', Fm b' = (Fp b', b')) :
    ∀ (l : List Nat) (v : Int),
      l.foldl
        (fun (acc : Int × List String) i =>
          if acc.2.getD i "" == EMPTY then
            (comb acc.1 (Fm (acc.2.set i mark)).1,
              (Fm (acc.2.set i mark)).2.set i EMPTY)
          else acc)
        (v, b)
      = (l.foldl
          (fun best i =>
            if b.getD i "" == EMPTY then comb best (Fp (b.set i mark))
            else best) v, b) := by
  intro l
  induction l with
  | nil => intro v; rfl
  | cons hd tl ih =>
    intro v
    simp only [List.foldl_cons]
    rcases hP : (b.getD hd "" == EMPTY) with _ | _
    · simp only [hP, Bool.false_eq_true, if_false]
      exact ih v
    · simp only [hP, if_pos]
      rw [hF (b.set hd mark), List.set_set,
        set_empty_self b hd (beq_iff_eq.mp hP)]
      exact ih _

/-- The threaded search returns the same score as the pure reading, and
hands the board back exactly as it received it: every mark placed during
the search is undone. -/
theorem minimaxMut_eq (fuel : Nat) : ∀ (b : List String) (d : Int)
    (p : Bool), minimaxMut fuel b d p = (minimax fuel b d p, b) := by
  induction fuel with
  | zero =>
    intro b d p
    rw [minimaxMut_zero_def, minimax_zero_def]
    split_ifs <;> rfl
  | succ f ih =>
    intro b d p
    rw [minimaxMut_succ_def, minimax_succ_def]
    split_ifs with h1 h2 h3 hp
    · rfl
    · rfl
    · rfl
    · exact mutfold_eq b (fun x y => max x y) AI_O
        (fun b' => minimaxMut f b' (d + 1) false)
        (fun b' => minimax f b' (d + 1) false)
        (fun b' => ih b' (d + 1) false) (List.range 9) (-goIntPosInf)
    · exact mutfold_eq b (fun x y => min x y) PLAYER_X
        (fun b' => minimaxMut f b' (d + 1) true)
        (fun b' => minimax f b' (d + 1) true)
        (fun b' => ih b' (d + 1) true) (List.range 9) goIntPosInf

theorem rootmutfold_eq (b : List String) : ∀ (l : List Nat) (a : Int × Int),
    l.foldl
      (fun (acc : (Int × Int) × List String) i =>
        if acc.2.getD i "" == EMPTY then
          let rec1 := minimaxMut 9 (acc.2.set i AI_O) 0 false
          let undone := rec1.2.set i EMPTY
          if rec1.1 > acc.1.1 then ((rec1.1, (i : Int)), undone)
          else (acc.1, undone)
        else acc)
      (a, b)
    = (l.foldl
        (fun acc i =>
          if b.getD i "" == EMPTY then
            (if minimax 9 (b.set i AI_O) 0 false > acc.1 then
              (minimax 9 (b.set i AI_O) 0 false, (i : Int))
            else acc)
          else acc) a, b) := by
  intro l
  induction l with
  | nil => intro a; rfl
  | cons hd tl ih =>
    intro a
    simp only [List.foldl_cons]
    rcases hP : (b.getD hd "" == EMPTY) with _ | _
    · simp only [hP, Bool.false_eq_true, if_false]
      exact ih a
    · simp only [hP, if_pos]
      rw [minimaxMut_eq 9 (b.set hd AI_O) 0 false]
      simp only []
      rw [List.set_set, set_empty_self b hd (beq_iff_eq.mp hP)]
      by_cases hgt : minimax 9 (b.set hd AI_O) 0 false > a.1
      · rw [if_pos hgt, if_pos hgt]
        exact ih _
      · rw [if_neg hgt, if_neg hgt]
        exact ih a

/-- The threaded root loop restores the board and picks the same move. -/
theorem findBestMoveMinimaxMut_eq (b : List String) :
    findBestMoveMinimaxMut b = (findBestMoveMinimax b, b) := by
  unfold findBestMoveMinimaxMut
  rw [rootmutfold_eq b (List.range 9) (-goIntPosInf, -1),
    findBestMoveMinimax_def b]

theorem aiMove_cases (cornerOrder : List Nat) (pick : Nat) (s : GameState) :
    aiMove cornerOrder pick s = s ∨
    ∃ m : Nat, s.board.getD m "" = EMPTY ∧
      aiMove cornerOrder pick s = { s with board := s.board.set m AI_O } := by
  rcases hg : ((if s.boardSize = 3 then findBestMoveMinimax s.board
      else findBestMoveHeuristic cornerOrder pick s.board s.boardSize) != -1
      && s.board.getD (if s.boardSize = 3 then findBestMoveMinimax s.board
      else findBestMoveHeuristic cornerOrder pick s.board
        s.boardSize).toNat "" == EMPTY) with _ | _
  · left
    simp only [aiMove, hg, Bool.false_eq_true, if_false]
  · right
    rw [Bool.and_eq_true] at hg
    refine ⟨(if s.boardSize = 3 then findBestMoveMinimax s.board
      else findBestMoveHeuristic cornerOrder pick s.board
        s.boardSize).toNat, beq_iff_eq.mp hg.2, ?_⟩
    simp only [aiMove, Bool.and_eq_true, hg.1, hg.2, and_self, if_pos]

/-- **C8**: `aiMove` changes at most one cell, never overwrites a mark,
writes only `"O"` into an empty cell, and the selector's internal
place-and-undo search hands back the board unchanged. -/
theorem c8_aiMove_frame (cornerOrder : List Nat) (pick : Nat)
    (s : GameState) :
    (∃ m : Nat, ∀ j : Nat, j ≠ m →
      (aiMove cornerOrder pick s).board.getD j "" = s.board.getD j "") ∧
    (∀ j : Nat, s.board.getD j "" ≠ EMPTY →
      (aiMove cornerOrder pick s).board.getD j "" = s.board.getD j "") ∧
    (∀ j : Nat,
      (aiMove cornerOrder pick s).board.getD j "" ≠ s.board.getD j "" →
      s.board.getD j "" = EMPTY ∧
        (aiMove cornerOrder pick s).board.getD j "" = AI_O) ∧
    (∀ b : List String, findBestMoveMinimaxMut b = (findBestMoveMinimax b, b))
    := by
  refine ?_
  rcases aiMove_cases cornerOrder pick s with hid | ⟨m, hme, hset⟩
  · rw [hid]
    exact ⟨⟨0, fun j _ => rfl⟩, fun j _ => rfl,
      fun j hj => absurd rfl hj, findBestMoveMinimaxMut_eq⟩
  · rw [hset]
    refine ⟨⟨m, ?_⟩, ?_, ?_, findBestMoveMinimaxMut_eq⟩
    · intro j hj
      exact getD_set_ne s.board m j AI_O (fun h => hj h.symm)
    · intro j hj
      rcases eq_or_ne m j with rfl | hne
      · exact absurd hme hj
      · exact getD_set_ne s.board m j AI_O hne
    · intro j hj
      rw [getD_set] at hj ⊢
      by_cases hc : m = j ∧ m < s.board.length
      · rw [if_pos hc] at hj ⊢
        exact ⟨hc.1 ▸ hme, rfl⟩
      · rw [if_neg hc] at hj
        exact absurd rfl hj

/-- Witness for C8 at a concrete state. -/
theorem c8_witness :
    (∃ m : Nat, ∀ j : Nat, j ≠ m →
      (aiMove [] 0 ⟨["X", "O", "X", "O", "X", "O", "X", "", "O"], 3,
        ""⟩).board.getD j ""
        = (["X", "O", "X", "O", "X", "O", "X", "", "O"] :
            List String).getD j "") ∧
    (∀ j : Nat,
      (["X", "O", "X", "O", "X", "O", "X", "", "O"] : List String).getD j ""
        ≠ EMPTY →
      (aiMove [] 0 ⟨["X", "O", "X", "O", "X", "O", "X", "", "O"], 3,
        ""⟩).board.getD j ""
        = (["X", "O", "X", "O", "X", "O", "X", "", "O"] :
            List String).getD j "") ∧
    (∀ j : Nat,
      (aiMove [] 0 ⟨["X", "O", "X", "O", "X", "O", "X", "", "O"], 3,
        ""⟩).board.getD j ""
        ≠ (["X", "O", "X", "O", "X", "O", "X", "", "O"] :
            List String).getD j "" →
      (["X", "O", "X", "O", "X", "O", "X", "", "O"] : List String).getD j ""
          = EMPTY ∧
        (aiMove [] 0 ⟨["X", "O", "X", "O", "X", "O", "X", "", "O"], 3,
          ""⟩).board.getD j "" = AI_O) ∧
    (∀ b : List String,
      findBestMoveMinimaxMut b = (findBestMoveMinimax b, b)) :=
  c8_aiMove_frame [] 0 ⟨["X", "O", "X", "O", "X", "O", "X", "", "O"], 3, ""⟩

/-! ## Claim C9 -/

theorem heuristic_stage1 (cornerOrder : List Nat) (pick : Nat)
    (board : List String) (n : Nat) (m : Nat)
    (hne : isBoardFull board = false)
    (hfind : (getEmptySpots board).find?
      (fun move => checkWinner (board.set move AI_O) AI_O n) = some m) :
    findBestMoveHeuristic cornerOrder pick board n = (m : Int) := by
  simp only [findBestMoveHeuristic, spots_isEmpty_false board hne, hfind,
    Bool.false_eq_true, if_false]

theorem aiMoveH_of_selector (cornerOrder : List Nat) (pick : Nat)
    (b : List String) (w : String) (n : Nat) (m : Nat) (hn3 : n ≠ 3)
    (hsel : findBestMoveHeuristic cornerOrder pick b n = (m : Int))
    (hme : b.getD m "" = EMPTY) :
    aiMove cornerOrder pick ⟨b, n, w⟩ = ⟨b.set m AI_O, n, w⟩ := by
  have hbne : ((m : Int) != -1) = true := by
    simp only [bne_iff_ne, ne_eq]
    omega
  simp only [aiMove, if_neg hn3]
  rw [hsel]
  simp only [Int.toNat_natCast, hbne, beq_empty_of_eq hme, Bool.and_self,
    if_pos]

/-- **C9**: the handler never checks for an existing AI win before moving:
on a valid board where `"O"` already has a winning line, `"X"` does not,
and an empty cell remains, the selector is still invoked, one more `"O"`
is placed on an empty cell, and only then is winner `"O"` reported. -/
theorem c9_handler_ignores_existing_O_win (cornerOrder : List Nat)
    (pick : Nat) (b : List String) (n : Nat) (w : String)
    (_hn : n ≠ 0) (hlen : b.length = n * n)
    (hO : checkWinner b AI_O n = true)
    (hX : checkWinner b PLAYER_X n = false)
    (hne : isBoardFull b = false) :
    ∃ m : Nat, m < b.length ∧ b.getD m "" = EMPTY ∧
      playLogic cornerOrder pick ⟨b, n, w⟩ = ⟨b.set m AI_O, n, AI_O⟩ := by
  obtain ⟨i0, hi0, he0⟩ := exists_empty_of_not_full b hne
  have hmove : ∃ m : Nat, m < b.length ∧ b.getD m "" = EMPTY ∧
      aiMove cornerOrder pick ⟨b, n, w⟩ = ⟨b.set m AI_O, n, w⟩ := by
    by_cases hn3 : n = 3
    · subst hn3
      have h9 : b.length = 9 := by omega
      obtain ⟨m, hsel, hmlt, hme, _, _⟩ :=
        selector_spec b h9 ⟨i0, h9 ▸ hi0, he0⟩
      exact ⟨m, by omega, hme,
        aiMove3_of_selector cornerOrder pick b w m hsel hme⟩
    · have hwin0 : checkWinner (b.set i0 AI_O) AI_O n = true :=
        checkWinner_set_self b i0 AI_O n hO
      obtain ⟨m, hfind⟩ := find?_spots_some b
        (fun move => checkWinner (b.set move AI_O) AI_O n) i0 hi0 he0 hwin0
      obtain ⟨hmlt, hme, _, _⟩ := find?_spots_spec b _ m hfind
      have hsel := heuristic_stage1 cornerOrder pick b n m hne hfind
      exact ⟨m, hmlt, hme,
        aiMoveH_of_selector cornerOrder pick b w n m hn3 hsel hme⟩
  obtain ⟨m, hmlt, hme, hm⟩ := hmove
  have hOwin : checkWinner (b.set m AI_O) AI_O n = true :=
    checkWinner_set_self b m AI_O n hO
  refine ⟨m, hmlt, hme, ?_⟩
  simp only [playLogic, hX, hne, Bool.false_eq_true, if_false, hm, hOwin,
    if_pos]

/-- Witness for C9 at a concrete 3x3 board where `"O"` already owns the
top row. -/
theorem c9_witness :
    ∃ m : Nat,
      m < (["O", "O", "O", "X", "X", "", "", "", ""] : List String).length ∧
      (["O", "O", "O", "X", "X", "", "", "", ""] : List String).getD m ""
        = EMPTY ∧
      playLogic [] 0 ⟨["O", "O", "O", "X", "X", "", "", "", ""], 3, ""⟩
        = ⟨(["O", "O", "O", "X", "X", "", "", "", ""] : List String).set
            m AI_O, 3, AI_O⟩ :=
  c9_handler_ignores_existing_O_win [] 0
    ["O", "O", "O", "X", "X", "", "", "", ""] 3 ""
    (by decide) (by decide) (by decide) (by decide) (by decide)

/-! ## Claim C10 -/

/-- **C10**: a request with `boardSize = 0` is rejected with the 400 error
even when the board array is empty (where the length check `0 = 0*0` alone
would pass), and the game logic runs exactly when `boardSize` is non-zero
and the board length equals its square. -/
theorem c10_boardSize_zero_rejected :
    (∀ w : String, handlePlay [] 0 ⟨[], 0, w⟩ = PlayResult.badRequest) ∧
    (∀ (cornerOrder : List Nat) (pick : Nat) (s : GameState),
      (∃ g, handlePlay cornerOrder pick s = PlayResult.ok g) ↔
        (s.boardSize ≠ 0 ∧ s.board.length = s.boardSize * s.boardSize)) := by
  constructor
  · intro w
    simp [handlePlay]
  · intro cornerOrder pick s
    by_cases hc : s.boardSize = 0 ∨
        s.board.length ≠ s.boardSize * s.boardSize
    · rw [handlePlay, if_pos hc]
      constructor
      · rintro ⟨g, hg⟩
        cases hg
      · rintro ⟨h1, h2⟩
        rcases hc with hc | hc
        · exact absurd hc h1
        · exact absurd h2 hc
    · rw [handlePlay, if_neg hc]
      push_neg at hc
      constructor
      · intro _
        exact hc
      · intro _
        exact ⟨playLogic cornerOrder pick s, rfl⟩

/-- Witness for C10: the rejection at the concrete empty request. -/
theorem c10_witness : handlePlay [] 0 ⟨[], 0, ""⟩ = PlayResult.badRequest :=
  c10_boardSize_zero_rejected.1 ""
